import Mathlib

set_option maxHeartbeats 1000000

/-!
Verification development for the analytical core of a Caddyfile language
server: lexer model, parser, schema-driven analyzer, snippet registry and
completion-context resolver, together with theorems about their behaviour.

Conventions. Go byte offsets coincide with character offsets on the ASCII
inputs considered here, so `String.length` stands in for Go's `len`.
Go's `fmt.Sprintf("%q", s)` is modelled by `goQuote` (plain quoting; none of
the names involved need escaping).
-/

namespace CaddyLS

/-- Token kinds, translated from `TokenType` in the parser package. The
`newline` and `comment` kinds are retained for enum compatibility; the
Caddyfile tokenizer in use produces neither. -/
inductive TokenType where
  | illegal
  | eof
  | ident
  | lbrace
  | rbrace
  | newline
  | comment
  | string
deriving Repr, DecidableEq

/-- Translated from Go's `TokenType.String()`. -/
def tokenTypeString : TokenType → String
  | .illegal => "ILLEGAL"
  | .eof => "EOF"
  | .ident => "IDENT"
  | .lbrace => "LBRACE"
  | .rbrace => "RBRACE"
  | .newline => "NEWLINE"
  | .comment => "COMMENT"
  | .string => "STRING"

/-- LSP position: 0-based line and character. -/
structure Position where
  line : Nat
  character : Nat
deriving Repr, DecidableEq

/-- LSP range, half-open `[start, stop)`. Go calls the second field `End`. -/
structure Range where
  start : Position
  stop : Position
deriving Repr, DecidableEq

/-- A lexed token, translated from `parser.Token`. -/
structure Token where
  type : TokenType
  value : String
  line : Nat
  char : Nat
deriving Repr, DecidableEq

/-- Translated from `Token.Range()` in ast.go: the token's own line, from its
start column to start column plus value length. -/
def Token.range (t : Token) : Range :=
  Range.mk (Position.mk t.line t.char) (Position.mk t.line (t.char + t.value.length))

/-- The literal open-brace character. -/
def lbraceChar : Char := Char.ofNat 123

/-- The literal close-brace character. -/
def rbraceChar : Char := Char.ofNat 125

/-- The double-quote character. -/
def dquoteChar : Char := Char.ofNat 34

/-- The backtick character. -/
def btickChar : Char := Char.ofNat 96

/-- A character that can continue a bareword token: anything that is not
whitespace. Tokens of the underlying Caddyfile tokenizer are maximal
whitespace-free runs. -/
def isWordChar (c : Char) : Bool := ¬ c.isWhitespace

/-- Classification applied by `addColumns` to an unquoted Caddyfile token:
a token whose text is exactly `{` (resp. `}`) is a structural brace, any
other text is an identifier. -/
def classifyWord (w : List Char) : TokenType :=
  if w = [lbraceChar] then TokenType.lbrace
  else if w = [rbraceChar] then TokenType.rbrace
  else TokenType.ident

/-- The trailing EOF token appended by `Tokenize` (zero value: line 0, col 0). -/
def eofToken : Token := Token.mk TokenType.eof "" 0 0

/-- Modelled from the spec: the external `caddyfile.Tokenize` (the official
Caddy tokenizer, not part of this repository) combined with the column
enrichment of `addColumns`. Tokens are maximal whitespace-free runs; a
`{`...`}` span contiguous inside such a run is swallowed whole into the
token (the spec's opaque runtime placeholders), while a run consisting of
exactly `{` or `}` is a structural brace token; `#` at a token start begins
a line comment that is discarded; `"`...`"` and backtick-quoted spans are
string tokens read through the matching closing quote or to end of input.
The fuel argument only drives structural recursion; each step consumes at
least one character, so `length + 1` fuel always suffices. -/
def lexRun : Nat → List Char → Nat → Nat → List Token
  | 0, _, _, _ => [eofToken]
  | _ + 1, [], _, _ => [eofToken]
  | fuel + 1, c :: rest, line, col =>
    if c = '\n' then lexRun fuel rest (line + 1) 0
    else if c.isWhitespace then lexRun fuel rest line (col + 1)
    else if c = '#' then
      lexRun fuel (rest.dropWhile (fun ch => ch ≠ '\n')) line
        (col + 1 + (rest.takeWhile (fun ch => ch ≠ '\n')).length)
    else if c = dquoteChar ∨ c = btickChar then
      let body := rest.takeWhile (fun ch => ch ≠ c)
      let closed := body.length < rest.length
      let value := if closed then c :: (body ++ [c]) else c :: body
      let consumed := if closed then body.length + 1 else body.length
      let nl := body.count '\n'
      let line2 := line + nl
      let col2 :=
        if nl = 0 then col + 1 + consumed
        else (body.reverse.takeWhile (fun ch => ch ≠ '\n')).length + (if closed then 1 else 0)
      Token.mk TokenType.string (String.mk value) line col :: lexRun fuel (rest.drop consumed) line2 col2
    else
      let w := (c :: rest).takeWhile isWordChar
      Token.mk (classifyWord w) (String.mk w) line col ::
        lexRun fuel ((c :: rest).drop w.length) line (col + w.length)

/-- Modelled from the spec: the model tokenizer over a source string. -/
def tokenize (src : String) : List Token :=
  lexRun (src.length + 1) src.data 0 0

/-- Translated from `Tokenize` in the parser package: the outcome of the
external `caddyfile.Tokenize` call is abstracted as an `Except` value; on a
tokenizer error the shim returns a stream consisting of a single EOF token,
otherwise the converted token list. -/
def tokenizeShim (caddyResult : Except String (List Token)) : List Token :=
  match caddyResult with
  | .error _ => [eofToken]
  | .ok ts => ts

/-- The full tokenization pipeline used by `Parse`: the model tokenizer never
fails, so the shim always takes its `ok` branch. -/
def Tokenize (src : String) : List Token :=
  tokenizeShim (Except.ok (tokenize src))

/-! ## AST (translated from ast.go) -/

/-- Translated from `parser.Argument`: a single token used as a directive
argument. -/
structure Argument where
  token : Token
deriving Repr, DecidableEq

/-- Translated from `parser.Directive`: a named directive with arguments, an
optional body of sub-directives, and its start/end lines. -/
inductive Directive where
  | mk (name : Token) (args : List Argument) (body : List Directive) (startLine : Nat) (endLine : Nat)

compile_inductive% Directive

/-- Name token of a directive. -/
def Directive.name : Directive → Token
  | .mk n _ _ _ _ => n

/-- Argument list of a directive. -/
def Directive.args : Directive → List Argument
  | .mk _ a _ _ _ => a

/-- Body (sub-directive list) of a directive. -/
def Directive.body : Directive → List Directive
  | .mk _ _ b _ _ => b

/-- Start line of a directive. -/
def Directive.startLine : Directive → Nat
  | .mk _ _ _ s _ => s

/-- End line of a directive. -/
def Directive.endLine : Directive → Nat
  | .mk _ _ _ _ e => e

/-- Replace the end line of a directive (Go mutates `d.EndLine`). -/
def Directive.setEndLine : Directive → Nat → Directive
  | .mk n a b s _, e => .mk n a b s e

/-- Append a sub-directive to the body (Go appends to `d.Body`). -/
def Directive.pushBody : Directive → Directive → Directive
  | .mk n a b s e, sub => .mk n a (b ++ [sub]) s e

/-- Translated from `parser.SiteBlock`. -/
structure SiteBlock where
  addresses : List Token
  directives : List Directive
  startLine : Nat
  endLine : Nat

/-- Translated from `parser.GlobalBlock`. -/
structure GlobalBlock where
  directives : List Directive
  startLine : Nat
  endLine : Nat

/-- Translated from `parser.File`. -/
structure File where
  globalBlock : Option GlobalBlock
  siteBlocks : List SiteBlock

/-! ## Parser (translated from the parser package) -/

/-- Translated from `parser.ParseError`. -/
structure ParseError where
  message : String
  rng : Range
deriving Repr, DecidableEq

/-- Parser state: the token slice, current position, and accumulated errors
(the fields of Go's `parser` struct). -/
structure PState where
  tokens : List Token
  pos : Nat
  errors : List ParseError

/-- Translated from `parser.peek`, which skips COMMENT and NEWLINE tokens by
advancing `p.pos`: returns the first relevant token index at or after `pos`,
or the position past the end if none. The default EOF token is returned past
the end. The fuel argument only drives structural recursion; `peek` supplies
fuel that always suffices (the loop advances `pos` towards the length). -/
def peekAux : Nat → List Token → Nat → Token × Nat
  | 0, _, pos => (Token.mk TokenType.eof "" 0 0, pos)
  | fuel + 1, tokens, pos =>
    if h : pos < tokens.length then
      let t := tokens.get ⟨pos, h⟩
      if t.type = TokenType.comment ∨ t.type = TokenType.newline then
        peekAux fuel tokens (pos + 1)
      else (t, pos)
    else (Token.mk TokenType.eof "" 0 0, pos)

/-- Translated from `parser.peek` (the state-mutating wrapper). -/
def peek (st : PState) : Token × PState :=
  let r := peekAux (st.tokens.length + 1 - st.pos) st.tokens st.pos
  (r.1, PState.mk st.tokens r.2 st.errors)

/-- Translated from `parser.next`: consume the peeked token unless it is EOF. -/
def next (st : PState) : Token × PState :=
  let r := peek st
  if r.1.type = TokenType.eof then r
  else (r.1, PState.mk r.2.tokens (r.2.pos + 1) r.2.errors)

/-- Translated from `parser.errorf`: append a parse error. -/
def pushErr (st : PState) (msg : String) (rng : Range) : PState :=
  PState.mk st.tokens st.pos (st.errors ++ [ParseError.mk msg rng])

/-- Go's `%q` verb applied to the plain names occurring here: wrap in double
quotes (no escaping is needed for such values). -/
def goQuote (s : String) : String := "\"" ++ s ++ "\""

/-- Models Go's `strings.HasPrefix` (computed on the character data). -/
def goHasPrefix (s pre : String) : Bool := pre.data.isPrefixOf s.data

/-- Models Go's `strings.HasSuffix` (computed on the character data). -/
def goHasSuffix (s suf : String) : Bool := suf.data.isSuffixOf s.data

/-- Models Go's `strings.Contains` for a single-character substring
(computed on the character data). -/
def goContainsChar (s : String) (c : Char) : Bool := s.data.contains c

/-- Lexicographic order on character lists (Go's byte order coincides with
this on the ASCII names compared here). -/
def lexLe : List Char → List Char → Bool
  | [], _ => true
  | _ :: _, [] => false
  | a :: as, b :: bs => if a = b then lexLe as bs else decide (a < b)

/-- Models the string order used by Go's `sort.Strings`. -/
def goStringLe (a b : String) : Bool := lexLe a.data b.data

/-- The sorting relation of the model (`sort.Strings` sorts ascending). -/
def goStrLeRel (a b : String) : Prop := goStringLe a b = true

instance goStrLeRel.decRel : DecidableRel goStrLeRel := fun a b => by
  unfold goStrLeRel; infer_instance

/-- Message of the unclosed-global-block parse error. -/
def unclosedGlobalMsg : String := "unclosed global options block"

/-- Message of the stray-closing-brace parse error. -/
def unexpectedRbraceMsg : String := "unexpected '\x7d'"

/-- Message of the unclosed-site-block parse error for address `v`. -/
def unclosedSiteMsg (v : String) : String := "unclosed site block for " ++ goQuote v

/-- Message of the missing-open-brace parse error after site addresses. -/
def expectedBraceMsg : String := "expected '\x7b' after site address(es)"

/-- Message of the unexpected-token parse error in directive position. -/
def expectedNameMsg (tt : TokenType) : String :=
  "expected directive name, got " ++ tokenTypeString tt

/-- Message of the unclosed-directive-body parse error for directive `v`. -/
def unclosedDirMsg (v : String) : String := "unclosed block for directive " ++ goQuote v

/-- Translated from the argument-collection loop of `parseDirective`:
consume tokens on the name's line until EOF, a brace, or a line break. -/
def parseArgs : Nat → PState → Token → List Argument → List Argument × PState
  | 0, st, _, acc => (acc, st)
  | fuel + 1, st, name, acc =>
    let p := peek st
    let tok := p.1
    let st := p.2
    if tok.type = TokenType.eof ∨ tok.type = TokenType.lbrace ∨ tok.type = TokenType.rbrace then
      (acc, st)
    else if tok.line ≠ name.line then (acc, st)
    else
      let n := next st
      parseArgs fuel n.2 name (acc ++ [Argument.mk n.1])

mutual

/-- Translated from `parser.parseDirective`. -/
def parseDirective : Nat → PState → Option Directive × PState
  | 0, st => (none, st)
  | fuel + 1, st =>
    let p := peek st
    let tok := p.1
    let st := p.2
    if tok.type ≠ TokenType.ident ∧ tok.type ≠ TokenType.string then
      let st := pushErr st (expectedNameMsg tok.type) tok.range
      let n := next st
      (none, n.2)
    else
      let n := next st
      let name := n.1
      let st := n.2
      let a := parseArgs fuel st name []
      let st := a.2
      let d := Directive.mk name a.1 [] name.line name.line
      let p2 := peek st
      let st := p2.2
      if p2.1.type = TokenType.lbrace then
        let n2 := next st
        let r := parseDirectiveBody fuel n2.2 d
        (some r.1, r.2)
      else (some d, st)

/-- Translated from the body-block loop of `parseDirective`: parse
sub-directives until the closing brace (which sets `endLine`) or EOF (which
reports an unclosed block and leaves `endLine` untouched). -/
def parseDirectiveBody : Nat → PState → Directive → Directive × PState
  | 0, st, d => (d, st)
  | fuel + 1, st, d =>
    let p := peek st
    let tok := p.1
    let st := p.2
    if tok.type = TokenType.eof then
      (d, pushErr st (unclosedDirMsg d.name.value) tok.range)
    else if tok.type = TokenType.rbrace then
      let n := next st
      (d.setEndLine tok.line, n.2)
    else
      let r := parseDirective fuel st
      let d := match r.1 with
        | some sub => d.pushBody sub
        | none => d
      parseDirectiveBody fuel r.2 d

end

/-- Translated from the address-collection loop of `parseSiteBlock`: collect
address tokens until `{` or EOF; a stray `}` aborts the site block with an
error (Go returns nil). -/
def parseSiteAddrs : Nat → PState → SiteBlock → Option SiteBlock × PState
  | 0, st, sb => (some sb, st)
  | fuel + 1, st, sb =>
    let p := peek st
    let tok := p.1
    let st := p.2
    if tok.type = TokenType.eof ∨ tok.type = TokenType.lbrace then (some sb, st)
    else if tok.type = TokenType.rbrace then
      let st := pushErr st unexpectedRbraceMsg tok.range
      let n := next st
      (none, n.2)
    else
      let sb := if sb.addresses = [] then
          SiteBlock.mk sb.addresses sb.directives tok.line sb.endLine
        else sb
      let n := next st
      parseSiteAddrs fuel n.2
        (SiteBlock.mk (sb.addresses ++ [n.1]) sb.directives sb.startLine sb.endLine)

/-- First address value of a site block (Go indexes `sb.Addresses[0]`, which
is only reached with a nonempty address list). -/
def firstAddrValue (sb : SiteBlock) : String :=
  match sb.addresses with
  | [] => ""
  | a :: _ => a.value

/-- Translated from the body loop of `parseSiteBlock`: parse directives until
the closing brace (which sets `endLine`) or EOF (which reports an unclosed
site block and leaves `endLine` untouched). -/
def parseSiteBody : Nat → PState → SiteBlock → SiteBlock × PState
  | 0, st, sb => (sb, st)
  | fuel + 1, st, sb =>
    let p := peek st
    let tok := p.1
    let st := p.2
    if tok.type = TokenType.eof then
      (sb, pushErr st (unclosedSiteMsg (firstAddrValue sb)) tok.range)
    else if tok.type = TokenType.rbrace then
      let n := next st
      (SiteBlock.mk sb.addresses sb.directives sb.startLine tok.line, n.2)
    else
      let r := parseDirective fuel st
      let sb := match r.1 with
        | some d => SiteBlock.mk sb.addresses (sb.directives ++ [d]) sb.startLine sb.endLine
        | none => sb
      parseSiteBody fuel r.2 sb

/-- Translated from `parser.parseSiteBlock`. -/
def parseSiteBlock (fuel : Nat) (st : PState) : Option SiteBlock × PState :=
  let r := parseSiteAddrs fuel st (SiteBlock.mk [] [] 0 0)
  match r.1 with
  | none => (none, r.2)
  | some sb =>
    if sb.addresses = [] then (none, r.2)
    else
      let p := peek r.2
      if p.1.type ≠ TokenType.lbrace then
        (some sb, pushErr p.2 expectedBraceMsg p.1.range)
      else
        let n := next p.2
        let b := parseSiteBody fuel n.2 sb
        (some b.1, b.2)

/-- Translated from the body loop of `parseGlobalBlock`. -/
def parseGlobalBody : Nat → PState → GlobalBlock → GlobalBlock × PState
  | 0, st, g => (g, st)
  | fuel + 1, st, g =>
    let p := peek st
    let tok := p.1
    let st := p.2
    if tok.type = TokenType.eof then
      (g, pushErr st unclosedGlobalMsg tok.range)
    else if tok.type = TokenType.rbrace then
      let n := next st
      (GlobalBlock.mk g.directives g.startLine tok.line, n.2)
    else
      let r := parseDirective fuel st
      let g := match r.1 with
        | some d => GlobalBlock.mk (g.directives ++ [d]) g.startLine g.endLine
        | none => g
      parseGlobalBody fuel r.2 g

/-- Translated from `parser.parseGlobalBlock`. -/
def parseGlobalBlock (fuel : Nat) (st : PState) : GlobalBlock × PState :=
  let n := next st
  parseGlobalBody fuel n.2 (GlobalBlock.mk [] n.1.line 0)

/-- Translated from the site-block loop of `parseFile`. -/
def parseFileLoop : Nat → PState → List SiteBlock → List SiteBlock × PState
  | 0, st, acc => (acc, st)
  | fuel + 1, st, acc =>
    let p := peek st
    let st := p.2
    if p.1.type = TokenType.eof then (acc, st)
    else
      let r := parseSiteBlock fuel st
      let acc := match r.1 with
        | some sb => acc ++ [sb]
        | none => acc
      parseFileLoop fuel r.2 acc

/-- Translated from `parser.parseFile`. -/
def parseFile (fuel : Nat) (st : PState) : File × List ParseError :=
  let p := peek st
  let g := if p.1.type = TokenType.lbrace then
      let r := parseGlobalBlock fuel p.2
      (some r.1, r.2)
    else (none, p.2)
  let sbs := parseFileLoop fuel g.2 []
  (File.mk g.1 sbs.1, sbs.2.errors)

/-- Translated from `parser.Parse`: tokenize and parse. The fuel is an upper
bound on the parser's recursion depth; every recursive step consumes at least
one token, so a small multiple of the stream length always suffices. -/
def Parse (src : String) : File × List ParseError :=
  let ts := Tokenize src
  parseFile (4 * ts.length + 16) (PState.mk ts 0 [])

/-! ## Schema registry (translated from analyzer.go) -/

/-- Translated from `knownSubDirectiveParent`: subdirectives that are only
valid inside a specific parent, mapped to that parent's name. -/
def knownSubDirectiveParent : List (String × String) :=
  [("to", "reverse_proxy"), ("transport", "reverse_proxy"), ("header_up", "reverse_proxy"),
   ("header_down", "reverse_proxy"), ("lb_policy", "reverse_proxy"), ("lb_retries", "reverse_proxy"),
   ("lb_try_duration", "reverse_proxy"), ("lb_try_interval", "reverse_proxy"),
   ("health_uri", "reverse_proxy"), ("health_port", "reverse_proxy"),
   ("health_interval", "reverse_proxy"), ("health_timeout", "reverse_proxy"),
   ("health_status", "reverse_proxy"), ("health_body", "reverse_proxy"),
   ("max_fails", "reverse_proxy"), ("unhealthy_status", "reverse_proxy"),
   ("unhealthy_latency", "reverse_proxy"), ("flush_interval", "reverse_proxy"),
   ("buffer_requests", "reverse_proxy"), ("buffer_responses", "reverse_proxy"),
   ("max_buffer_size", "reverse_proxy"), ("trusted_proxies", "reverse_proxy"),
   ("handle_response", "reverse_proxy"), ("replace_status", "reverse_proxy"),
   ("protocols", "tls"), ("ciphers", "tls"), ("curves", "tls"), ("alpn", "tls"),
   ("load", "tls"), ("ca", "tls"), ("ca_root", "tls"), ("key_type", "tls"),
   ("dns", "tls"), ("resolvers", "tls"), ("eab", "tls"), ("on_demand", "tls"),
   ("client_auth", "tls"), ("get_certificate", "tls"),
   ("gzip", "encode"), ("zstd", "encode"), ("br", "encode"),
   ("output", "log"), ("format", "log"), ("level", "log")]

/-- Translated from `knownSubDirectives`: a directive name mapped to the set
of subdirective names valid inside its body; `none` as value means the body
is freeform and is not validated. -/
def knownSubDirectives : List (String × Option (List String)) :=
  [("reverse_proxy", some
     ["to", "dynamic", "transport", "header_up", "header_down",
      "lb_policy", "lb_retries", "lb_try_duration", "lb_try_interval", "lb_retry_match",
      "health_uri", "health_port", "health_interval", "health_timeout", "health_status",
      "health_body", "health_passes", "health_fails", "health_headers", "health_request_body",
      "max_fails", "fail_duration", "unhealthy_status", "unhealthy_latency",
      "unhealthy_request_count", "flush_interval", "trusted_proxies",
      "request_buffers", "response_buffers", "stream_timeout", "stream_close_delay",
      "buffer_requests", "buffer_responses", "max_buffer_size",
      "handle_response", "replace_status", "copy_response", "copy_response_headers"]),
   ("tls", some
     ["protocols", "ciphers", "curves", "alpn", "load", "ca", "ca_root", "key_type",
      "dns", "propagation_delay", "propagation_timeout", "resolvers",
      "dns_challenge_override_domain", "eab", "on_demand", "client_auth",
      "issuer", "get_certificate", "insecure_secrets_log", "reuse_private_keys"]),
   ("encode", some ["gzip", "zstd", "br", "minimum_length", "match"]),
   ("log", some ["hostnames", "output", "format", "level", "include", "exclude", "sampling"]),
   ("file_server", some
     ["fs", "root", "hide", "index", "browse", "precompressed", "status",
      "disable_canonical_uris", "pass_thru"]),
   ("php_fastcgi", some
     ["root", "split", "env", "resolve_root_symlink", "dial_timeout", "read_timeout",
      "write_timeout", "capture_stderr", "index", "try_files"]),
   ("request_body", some ["max_size"]),
   ("forward_auth", some
     ["uri", "copy_headers", "header_up", "header_down", "trust_forward_header"]),
   ("acme_server", some ["ca", "lifetime", "resolvers", "challenges"]),
   ("templates", some ["mime_type", "delimiters", "root", "extensions"]),
   ("tracing", some ["span"]),
   ("basicauth", none), ("header", none), ("request_header", none), ("map", none)]

/-- Translated from `knownSubSubDirectives`, keyed by "subdirective:first
argument". -/
def knownSubSubDirectives : List (String × List String) :=
  [("transport:http",
     ["read_buffer", "write_buffer", "max_response_header", "proxy_protocol",
      "network_proxy", "dial_timeout", "dial_fallback_delay", "response_header_timeout",
      "expect_continue_timeout", "read_timeout", "write_timeout", "resolvers",
      "tls", "tls_client_auth", "tls_insecure_skip_verify", "tls_curves", "tls_timeout",
      "tls_trust_pool", "tls_server_name", "tls_renegotiation", "tls_except_ports",
      "keepalive", "keepalive_interval", "keepalive_idle_conns",
      "keepalive_idle_conns_per_host", "versions", "compression", "max_conns_per_host"]),
   ("transport:fastcgi",
     ["root", "split", "env", "resolve_root_symlink", "dial_timeout",
      "read_timeout", "write_timeout", "capture_stderr"])]

/-- Translated from `containerDirectives` in analyzer.go. -/
def containerDirectives : List String := ["handle", "handle_errors", "handle_path", "route"]

/-- Translated from `KnownTopLevel`: the set of directives valid at the
site-block level. -/
def KnownTopLevel : List String :=
  ["abort", "error", "handle", "handle_errors", "handle_path", "invoke", "map", "method",
   "redir", "request_body", "respond", "rewrite", "route", "try_files", "uri", "vars",
   "forward_auth", "php_fastcgi", "reverse_proxy", "file_server", "push", "root",
   "acme_server", "tls", "header", "request_header", "encode", "templates", "basicauth",
   "log", "log_append", "log_skip", "log_name", "intercept", "metrics", "tracing",
   "bind", "import", "local_certs"]

/-- Translated from `SubDirectivesFor`: `none` means the parent is unknown to
the analyzer; `some none` means the body is freeform. -/
def SubDirectivesFor (parentName : String) : Option (Option (List String)) :=
  knownSubDirectives.lookup parentName

/-- Translated from `KnownGlobalOptions`. -/
def KnownGlobalOptions : List String :=
  ["debug", "http_port", "https_port", "default_bind", "grace_period", "shutdown_delay",
   "admin", "on_demand_tls", "storage", "acme_ca", "acme_ca_root", "acme_dns", "acme_eab",
   "cert_issuer", "skip_install_trust", "email", "ocsp_stapling", "ocsp_interval",
   "preferred_chains", "key_type", "auto_https", "metrics", "tracing", "servers", "log",
   "order", "local_certs", "persist_config", "pki", "import"]

/-! ## Analyzer (translated from analyzer.go and its placeholder pass) -/

/-- Diagnostic severity (the two values used by the analyzer). -/
inductive Severity where
  | error
  | warning
deriving Repr, DecidableEq

/-- An LSP diagnostic as produced by the analyzer. -/
structure Diagnostic where
  rng : Range
  severity : Severity
  source : String
  message : String
deriving Repr, DecidableEq

/-- Build a Warning diagnostic with source "caddy-ls". -/
def mkWarn (rng : Range) (msg : String) : Diagnostic :=
  Diagnostic.mk rng Severity.warning "caddy-ls" msg

/-- Build an Error diagnostic with source "caddy-ls". -/
def mkErr (rng : Range) (msg : String) : Diagnostic :=
  Diagnostic.mk rng Severity.error "caddy-ls" msg

/-- Translated from `parseSnippetName`: extract the snippet name from an
address like `(mysnippet)`. -/
def parseSnippetName (addr : String) : Option String :=
  if goHasPrefix addr "(" ∧ goHasSuffix addr ")" ∧ addr.length > 2 then
    some (String.mk (addr.data.drop 1).dropLast)
  else none

/-- Snippet name of one site block: Go's loop body in `CollectSnippetNames`
(skip blocks with no addresses, then try `parseSnippetName` on the first). -/
def snippetNameOf (sb : SiteBlock) : Option String :=
  match sb.addresses with
  | [] => none
  | a :: _ => parseSnippetName a.value

/-- Translated from `CollectSnippetNames`: names of all snippets defined in
`f`, without parentheses, sorted (Go calls `sort.Strings`). -/
def CollectSnippetNames (f : File) : List String :=
  List.insertionSort goStrLeRel (f.siteBlocks.filterMap snippetNameOf)

/-- Translated from `collectSnippets`: the snippet-name lookup used during
analysis (membership in the collected names). -/
def collectSnippets (f : File) : List String :=
  CollectSnippetNames f

/-- Translated from `isFileImport`: an import argument that is a file path or
glob pattern. -/
def isFileImport (arg : String) : Bool :=
  goContainsChar arg '/' ∨ goContainsChar arg '*' ∨ goContainsChar arg '\\' ∨ goHasPrefix arg "."

/-- Translated from `isCaddyPlaceholder`: an argument wrapped in braces. -/
def isCaddyPlaceholder (arg : String) : Bool :=
  goHasPrefix arg "\x7b" ∧ goHasSuffix arg "\x7d"

/-- Translated from `isSnippet`: a site block whose first address starts with
an opening parenthesis. -/
def isSnippet (sb : SiteBlock) : Bool :=
  match sb.addresses with
  | [] => false
  | a :: _ => goHasPrefix a.value "("

/-- Translated from `analyzeImport`: validate the snippet reference in
an import directive against the snippet names `snips` of the file. -/
def analyzeImport (snips : List String) (d : Directive) : List Diagnostic :=
  match d.args with
  | [] => []
  | a0 :: _ =>
    let arg := a0.token.value
    if isFileImport arg ∨ isCaddyPlaceholder arg then []
    else if snips.contains arg then []
    else [mkWarn a0.token.range ("undefined snippet " ++ goQuote arg)]

/-- Translated from `analyzeNestedBody`: validate the body of a subdirective
(e.g. `transport http`) against a known name set. -/
def analyzeNestedBody (snips : List String) (validDirs : List String) (parent : Directive)
    (grandparentName : String) : List Diagnostic :=
  let qualifiedParent := match parent.args with
    | [] => parent.name.value
    | a :: _ => parent.name.value ++ " " ++ a.token.value
  parent.body.flatMap fun sub =>
    let subName := sub.name.value
    if goHasPrefix subName "@" then []
    else if subName = "import" then analyzeImport snips sub
    else if validDirs.contains subName then []
    else
      [mkWarn sub.name.range
        ("unknown subdirective " ++ goQuote subName ++ " for " ++ goQuote grandparentName ++
          " " ++ goQuote qualifiedParent)]

/-- One iteration of the subdirective-validation loop of
`analyzeDirectiveBody` (the non-container case). -/
def analyzeSubDirective (snips : List String) (parentName : String) (subDirs : List String)
    (sub : Directive) : List Diagnostic :=
  let subName := sub.name.value
  if goHasPrefix subName "@" then []
  else if subName = "import" then analyzeImport snips sub
  else if ¬ subDirs.contains subName then
    [mkWarn sub.name.range ("unknown subdirective " ++ goQuote subName ++ " for " ++ goQuote parentName)]
  else if 0 < sub.body.length then
    let subKey := match sub.args with
      | [] => subName
      | a :: _ => subName ++ ":" ++ a.token.value
    match knownSubSubDirectives.lookup subKey with
    | some subSubDirs => analyzeNestedBody snips subSubDirs sub parentName
    | none => []
  else []

mutual

/-- Translated from `analyzeSiteDirective`: validate a directive at
site-block (or snippet, or container-body) level. The fuel argument only
drives structural recursion down the directive tree; callers supply a
`sizeOf`-based bound that always suffices. -/
def analyzeSiteDirective (fuel : Nat) (snips : List String) (d : Directive)
    (inSnippet : Bool) : List Diagnostic :=
  match fuel, d with
  | 0, _ => []
  | fuel + 1, d =>
    match d with
    | .mk nameTok args body s e =>
      let name := nameTok.value
      if goHasPrefix name "@" then []
      else if ¬ KnownTopLevel.contains name then
        if inSnippet ∧ (knownSubDirectiveParent.lookup name).isSome then []
        else
          let msg := match knownSubDirectiveParent.lookup name with
            | some parent =>
              goQuote name ++ " must appear inside a " ++ goQuote parent ++
                " block, not at the site level"
            | none => "unknown directive " ++ goQuote name
          [mkWarn nameTok.range msg]
      else if name = "import" then analyzeImport snips (Directive.mk nameTok args body s e)
      else analyzeDirectiveBody fuel snips name body inSnippet
termination_by structural fuel

/-- Translated from `analyzeDirectiveBody`: validate the subdirectives inside
a directive's body block; container directives recurse with the site rule. -/
def analyzeDirectiveBody (fuel : Nat) (snips : List String) (parentName : String)
    (body : List Directive) (inSnippet : Bool) : List Diagnostic :=
  match fuel, body with
  | 0, _ => []
  | _ + 1, [] => []
  | fuel + 1, d :: rest =>
    if containerDirectives.contains parentName then
      analyzeSiteDirective fuel snips d inSnippet ++
        analyzeDirectiveBody fuel snips parentName rest inSnippet
    else
      match knownSubDirectives.lookup parentName with
      | none => []
      | some none => []
      | some (some subDirs) => (d :: rest).flatMap (analyzeSubDirective snips parentName subDirs)
termination_by structural fuel

end

/-- Translated from `analyzeGlobalDirective`. -/
def analyzeGlobalDirective (snips : List String) (d : Directive) : List Diagnostic :=
  let name := d.name.value
  if goHasPrefix name "@" then []
  else if ¬ KnownGlobalOptions.contains name then
    [mkWarn d.name.range ("unknown global option " ++ goQuote name)]
  else if name = "import" then analyzeImport snips d
  else []

/-- Message of the unmatched-closing-brace placeholder diagnostic. -/
def unmatchedCloseMsg : String := "unmatched '\x7d': no opening '\x7b' for this placeholder"

/-- Message of the unclosed-placeholder diagnostic. -/
def unclosedPlaceholderMsg : String := "unclosed placeholder: '\x7b' without matching '\x7d'"

/-- Translated from the loop of `checkPlaceholderBalance`, with the running
depth made explicit: `\{` and `\}` are skipped as literal escapes; a `}` at
depth 0 reports an unmatched close immediately; positive final depth reports
an unclosed placeholder. -/
def checkBalanceFrom : List Char → Nat → String
  | [], depth => if depth > 0 then unclosedPlaceholderMsg else ""
  | '\\' :: c2 :: rest, depth =>
    if c2 = lbraceChar ∨ c2 = rbraceChar then checkBalanceFrom rest depth
    else checkBalanceFrom (c2 :: rest) depth
  | c :: rest, depth =>
    if c = lbraceChar then checkBalanceFrom rest (depth + 1)
    else if c = rbraceChar then
      if depth = 0 then unmatchedCloseMsg else checkBalanceFrom rest (depth - 1)
    else checkBalanceFrom rest depth

/-- Translated from `checkPlaceholderBalance`: empty string means balanced. -/
def checkPlaceholderBalance (s : String) : String :=
  checkBalanceFrom s.data 0

/-- Translated from `placeholderDiag`: an Error diagnostic at the token's
range when its text has unbalanced braces; structural brace tokens are
skipped. -/
def placeholderDiag (tok : Token) : Option Diagnostic :=
  if tok.type = TokenType.lbrace ∨ tok.type = TokenType.rbrace then none
  else
    let msg := checkPlaceholderBalance tok.value
    if msg = "" then none
    else some (mkErr tok.range msg)

mutual

/-- Translated from `analyzeDirectivePlaceholders`: scan a directive's
argument tokens, then recurse into its body. The fuel argument only drives
structural recursion down the directive tree; callers supply a
`sizeOf`-based bound that always suffices. -/
def analyzeDirectivePlaceholders (fuel : Nat) (d : Directive) : List Diagnostic :=
  match fuel, d with
  | 0, _ => []
  | fuel + 1, .mk _ args body _ _ =>
    (args.filterMap fun a => placeholderDiag a.token) ++ placeholdersList fuel body
termination_by structural fuel

/-- The body loop of `analyzeDirectivePlaceholders`. -/
def placeholdersList (fuel : Nat) (ds : List Directive) : List Diagnostic :=
  match fuel, ds with
  | 0, _ => []
  | _ + 1, [] => []
  | fuel + 1, d :: rest => analyzeDirectivePlaceholders fuel d ++ placeholdersList fuel rest
termination_by structural fuel

end

/-- Translated from `analyzeFilePlaceholders`: scan every address and
argument token in the file. -/
def analyzeFilePlaceholders (f : File) : List Diagnostic :=
  (match f.globalBlock with
    | some g => placeholdersList (sizeOf g.directives) g.directives
    | none => []) ++
  f.siteBlocks.flatMap fun sb =>
    (sb.addresses.filterMap placeholderDiag) ++
      placeholdersList (sizeOf sb.directives) sb.directives

/-- Translated from `Analyze`: global-block validation, site-block
validation (snippets suppress placement hints), then the placeholder scan. -/
def Analyze (f : File) : List Diagnostic :=
  let snips := collectSnippets f
  (match f.globalBlock with
    | some g => g.directives.flatMap (analyzeGlobalDirective snips)
    | none => []) ++
  (f.siteBlocks.flatMap fun sb =>
    sb.directives.flatMap fun d => analyzeSiteDirective (sizeOf d) snips d (isSnippet sb)) ++
  analyzeFilePlaceholders f

/-! ## Completion resolver (translated from completion.go) -/

/-- Translated from `topLevelDirectives` in completion.go: the sorted
`KnownTopLevel` names. -/
def topLevelDirectives : List String :=
  List.insertionSort goStrLeRel KnownTopLevel

/-- Translated from `containerDirectives` in completion.go (the handler
keeps its own copy of the container set). -/
def handlerContainerDirectives : List String :=
  ["handle", "handle_path", "handle_errors", "route"]

/-- Translated from `hasBody` in completion.go: a directive has a body block
iff its end line is strictly beyond its start line. -/
def hasBody (d : Directive) : Bool :=
  d.startLine < d.endLine

/-- Translated from `directiveNamesAt`: find the first directive whose body
strictly contains the cursor line; recurse into containers; return sorted
subdirective names for known directives, `none` for unknown or freeform
bodies, and the top-level names when no body contains the line. The fuel
argument only drives structural recursion down the directive tree; callers
supply a `sizeOf`-based bound that always suffices. -/
def directiveNamesAt (fuel : Nat) (directives : List Directive) (cursorLine : Nat) :
    Option (List String) :=
  match fuel, directives with
  | 0, _ => none
  | _ + 1, [] => some topLevelDirectives
  | fuel + 1, (Directive.mk nameTok args body s e) :: rest =>
    let d := Directive.mk nameTok args body s e
    if ¬ hasBody d ∨ cursorLine ≤ d.startLine ∨ d.endLine ≤ cursorLine then
      directiveNamesAt fuel rest cursorLine
    else if handlerContainerDirectives.contains nameTok.value then
      directiveNamesAt fuel body cursorLine
    else
      match SubDirectivesFor nameTok.value with
      | none => none
      | some none => none
      | some (some subDirs) => some (List.insertionSort goStrLeRel subDirs)
termination_by structural fuel

/-- The site-block loop of `completionNamesAt`. -/
def completionNamesAtAux : List SiteBlock → Nat → Option (List String)
  | [], _ => none
  | sb :: rest, cursorLine =>
    if cursorLine ≤ sb.startLine ∨ sb.endLine ≤ cursorLine then
      completionNamesAtAux rest cursorLine
    else directiveNamesAt (sizeOf sb.directives) sb.directives cursorLine

/-- Translated from `completionNamesAt`: names to complete at `cursorLine`,
or `none` when the cursor is not in a completable position. -/
def completionNamesAt (f : File) (cursorLine : Nat) : Option (List String) :=
  completionNamesAtAux f.siteBlocks cursorLine


/-! ## Claim-side reference definitions -/

/-- The subdirective name set the schema registers for `reverse_proxy`. -/
def reverseProxySubNames : List String :=
  match SubDirectivesFor "reverse_proxy" with
  | some (some l) => l
  | _ => []

mutual

/-- Following the claim's wording: the tokens inspected by the placeholder
scan inside one directive — its argument tokens, then (recursively) those of
its body. Fuel as in `analyzeDirectivePlaceholders`. -/
def scanTokensDir (fuel : Nat) (d : Directive) : List Token :=
  match fuel, d with
  | 0, _ => []
  | fuel + 1, .mk _ args body _ _ => (args.map fun a => a.token) ++ scanTokensList fuel body
termination_by structural fuel

/-- Following the claim's wording: the scanned tokens of a directive list. -/
def scanTokensList (fuel : Nat) (ds : List Directive) : List Token :=
  match fuel, ds with
  | 0, _ => []
  | _ + 1, [] => []
  | fuel + 1, d :: rest => scanTokensDir fuel d ++ scanTokensList fuel rest
termination_by structural fuel

end

/-- Following the claim's wording: every token inspected by the placeholder
scan of a file — each site block's address tokens and every directive
argument token at all nesting depths (global block included). -/
def scanTokensFile (f : File) : List Token :=
  (match f.globalBlock with
    | some g => scanTokensList (sizeOf g.directives) g.directives
    | none => []) ++
  f.siteBlocks.flatMap fun sb =>
    sb.addresses ++ scanTokensList (sizeOf sb.directives) sb.directives

/-- Depth contribution of one character in the placeholder-brace scan. -/
def braceDelta (c : Char) : Int :=
  if c = lbraceChar then 1 else if c = rbraceChar then -1 else 0

/-- Net brace depth of a character sequence. -/
def netDepth (cs : List Char) : Int :=
  (cs.map braceDelta).sum

/-- Following the claim's wording: remove each `\{` and `\}` escape pair,
which are literal escapes that never change depth. -/
def stripEscapedBraces : List Char → List Char
  | [] => []
  | '\\' :: c2 :: rest =>
    if c2 = lbraceChar ∨ c2 = rbraceChar then stripEscapedBraces rest
    else '\\' :: stripEscapedBraces (c2 :: rest)
  | c :: rest => c :: stripEscapedBraces rest

/-- Some prefix drives the running depth (started at `d`) below zero. -/
def hasUnderflowD (cs : List Char) (d : Int) : Bool :=
  cs.inits.any fun p => decide (netDepth p + d < 0)

/-- A closing brace occurs while the running depth is zero: some prefix has
negative net depth. -/
def hasUnderflow (cs : List Char) : Bool :=
  hasUnderflowD cs 0

/-- Line invariant of a directive tree: `startLine ≤ endLine` at every node. -/
inductive LinesOK : Directive → Prop where
  | mk : ∀ (name : Token) (args : List Argument) (body : List Directive) (s e : Nat),
      s ≤ e → (∀ d, d ∈ body → LinesOK d) → LinesOK (Directive.mk name args body s e)

/-- Line invariant over a whole parsed file. -/
def FileLinesOK (f : File) : Prop :=
  (∀ g, f.globalBlock = some g → ∀ d ∈ g.directives, LinesOK d) ∧
  ∀ sb ∈ f.siteBlocks, ∀ d ∈ sb.directives, LinesOK d

/-- Token lines never decrease along a token stream, except for EOF
tokens, which carry the zero value (true of every `Tokenize` output, whose
trailing EOF token has line 0; hypothesis of the line-invariant
theorems). -/
@[reducible] def LineMono (ts : List Token) : Prop :=
  List.Pairwise (fun a b => b.type = TokenType.eof ∨ a.line ≤ b.line) ts

/-- The error messages accumulated in a parser state. -/
def msgs (st : PState) : List String :=
  st.errors.map fun e => e.message

/-- The largest token line of a stream (the last seen line of the input, as
the spec puts it, since lines are non-decreasing). -/
def maxTokenLine (ts : List Token) : Nat :=
  ts.foldl (fun m t => max m t.line) 0

/-! ## Order lemmas for the model string sort -/

theorem lexLe_total (as bs : List Char) : lexLe as bs = true ∨ lexLe bs as = true := by
  induction as generalizing bs with
  | nil => left; rfl
  | cons x xs ih =>
    cases bs with
    | nil => right; rfl
    | cons y ys =>
      by_cases hxy : x = y
      · subst hxy
        rcases ih ys with h | h
        · left; simpa [lexLe] using h
        · right; simpa [lexLe] using h
      · rcases lt_or_gt_of_ne hxy with h | h
        · left; simp [lexLe, hxy, h]
        · right; simp [lexLe, Ne.symm hxy, h]

theorem lexLe_trans (as bs cs : List Char) (h1 : lexLe as bs = true)
    (h2 : lexLe bs cs = true) : lexLe as cs = true := by
  induction as generalizing bs cs with
  | nil => rfl
  | cons x xs ih =>
    cases bs with
    | nil => simp [lexLe] at h1
    | cons y ys =>
      cases cs with
      | nil => simp [lexLe] at h2
      | cons z zs =>
        simp only [lexLe] at h1 h2 ⊢
        by_cases hxy : x = y
        · subst hxy
          simp only [if_pos rfl] at h1
          by_cases hyz : x = z
          · subst hyz
            simp only [if_pos rfl] at h2 ⊢
            exact ih ys zs h1 h2
          · simp only [if_neg hyz] at h2 ⊢
            exact h2
        · simp only [if_neg hxy, decide_eq_true_eq] at h1
          by_cases hyz : y = z
          · subst hyz
            simp [if_neg hxy, h1]
          · simp only [if_neg hyz, decide_eq_true_eq] at h2
            have hxz : x < z := lt_trans h1 h2
            simp [ne_of_lt hxz, hxz]

theorem goStrLeRel_total (a b : String) : goStrLeRel a b ∨ goStrLeRel b a :=
  lexLe_total a.data b.data

theorem goStrLeRel_trans (a b c : String) (h1 : goStrLeRel a b) (h2 : goStrLeRel b c) :
    goStrLeRel a c :=
  lexLe_trans a.data b.data c.data h1 h2

/-! ## Placeholder-balance characterization -/

theorem netDepth_nil : netDepth [] = 0 := rfl

theorem netDepth_cons (c : Char) (cs : List Char) :
    netDepth (c :: cs) = braceDelta c + netDepth cs := by
  simp [netDepth]

theorem hasUnderflowD_cons (c : Char) (cs : List Char) (d : Int) :
    hasUnderflowD (c :: cs) d = (decide (d < 0) || hasUnderflowD cs (d + braceDelta c)) := by
  simp only [hasUnderflowD, List.inits_cons, List.any_cons, List.any_map, netDepth_nil,
    zero_add]
  congr 1
  have hfun : ((fun p => decide (netDepth p + d < 0)) ∘ fun t => c :: t) =
      (fun p => decide (netDepth p + (d + braceDelta c) < 0)) := by
    funext p
    simp only [Function.comp_apply, netDepth_cons]
    rw [decide_eq_decide]
    omega
  rw [hfun]

theorem hasUnderflowD_of_neg (cs : List Char) (d : Int) (h : d < 0) :
    hasUnderflowD cs d = true := by
  have hmem : [] ∈ cs.inits := by
    cases cs <;> simp [List.inits_cons]
  rw [hasUnderflowD, List.any_eq_true]
  exact ⟨[], hmem, by simpa [netDepth] using h⟩

theorem hasUnderflowD_nil (d : Int) : hasUnderflowD [] d = decide (d < 0) := by
  simp [hasUnderflowD, netDepth]

theorem checkBalanceFrom_eq (cs : List Char) (d : Nat) :
    checkBalanceFrom cs d =
      (if hasUnderflowD (stripEscapedBraces cs) (d : Int) then unmatchedCloseMsg
       else if 0 < netDepth (stripEscapedBraces cs) + (d : Int) then unclosedPlaceholderMsg
       else "") := by
  induction cs, d using checkBalanceFrom.induct with
  | case1 d hd =>
    have h1 : hasUnderflowD [] (d : Int) = false := by
      rw [hasUnderflowD_nil]
      simp only [decide_eq_false_iff_not]
      omega
    have h2 : (0 : Int) < netDepth [] + (d : Int) := by rw [netDepth_nil]; omega
    simp [checkBalanceFrom, stripEscapedBraces, hd, h1, h2]
  | case2 d hd =>
    have hd0 : d = 0 := by omega
    subst hd0
    simp [checkBalanceFrom, stripEscapedBraces, hasUnderflowD_nil, netDepth_nil]
  | case3 c2 rest d hbrace ih =>
    rw [checkBalanceFrom, if_pos hbrace, ih]
    simp [stripEscapedBraces, hbrace]
    all_goals intro c2 r hc hr
    all_goals first | exact absurd hc (by decide) | exact hsh c2 r hc hr
  | case4 c2 rest d hbrace ih =>
    rw [checkBalanceFrom, if_neg hbrace, ih]
    have hdelta : braceDelta '\\' = 0 := by decide
    simp only [stripEscapedBraces, if_neg hbrace, hasUnderflowD_cons, hdelta, netDepth_cons,
      add_zero, zero_add]
    have hneg : decide ((d : Int) < 0) = false := by
      simp only [decide_eq_false_iff_not]
      omega
    rw [hneg, Bool.false_or]
    all_goals intro c2 r hc hr
    all_goals first | exact absurd hc (by decide) | exact hsh c2 r hc hr
  | case5 rest d hsh ih =>
    rw [checkBalanceFrom, if_pos rfl, ih]
    rw [show stripEscapedBraces (lbraceChar :: rest) = lbraceChar :: stripEscapedBraces rest
      from by
      rw [stripEscapedBraces]
      all_goals intro c2 r hc hr
      all_goals first | exact absurd hc (by decide) | exact hsh c2 r hc hr]
    rw [hasUnderflowD_cons, netDepth_cons]
    have hdelta : braceDelta lbraceChar = 1 := by decide
    rw [hdelta]
    have hneg : decide ((d : Int) < 0) = false := by
      simp only [decide_eq_false_iff_not]
      omega
    rw [hneg, Bool.false_or]
    have hcast : ((d + 1 : Nat) : Int) = (d : Int) + 1 := by push_cast; ring
    rw [hcast]
    split_ifs <;> first | rfl | omega
    all_goals intro c2 r hc hr
    all_goals first | exact absurd hc (by decide) | exact hsh c2 r hc hr
  | case6 rest hsh hne =>
    rw [checkBalanceFrom, if_neg hne, if_pos rfl, if_pos rfl]
    rw [show stripEscapedBraces (rbraceChar :: rest) = rbraceChar :: stripEscapedBraces rest
      from by
      rw [stripEscapedBraces]
      all_goals intro c2 r hc hr
      all_goals first | exact absurd hc (by decide) | exact hsh c2 r hc hr]
    rw [hasUnderflowD_cons]
    have hdelta : braceDelta rbraceChar = -1 := by decide
    rw [hdelta]
    have hund : hasUnderflowD (stripEscapedBraces rest) (-1) = true :=
      hasUnderflowD_of_neg _ _ (by omega)
    simp [hund]
    all_goals intro c2 r hc hr
    all_goals first | exact absurd hc (by decide) | exact hsh c2 r hc hr
  | case7 rest d hd0 hsh hne ih =>
    rw [checkBalanceFrom, if_neg hne, if_pos rfl, if_neg hd0, ih]
    rw [show stripEscapedBraces (rbraceChar :: rest) = rbraceChar :: stripEscapedBraces rest
      from by
      rw [stripEscapedBraces]
      all_goals intro c2 r hc hr
      all_goals first | exact absurd hc (by decide) | exact hsh c2 r hc hr]
    rw [hasUnderflowD_cons, netDepth_cons]
    have hdelta : braceDelta rbraceChar = -1 := by decide
    rw [hdelta]
    have hneg : decide ((d : Int) < 0) = false := by
      simp only [decide_eq_false_iff_not]
      omega
    rw [hneg, Bool.false_or]
    have hcast : ((d - 1 : Nat) : Int) = (d : Int) + -1 := by omega
    rw [hcast]
    split_ifs <;> first | rfl | omega
    all_goals intro c2 r hc hr
    all_goals first | exact absurd hc (by decide) | exact hsh c2 r hc hr
  | case8 c rest d hsh hlb hrb ih =>
    rw [checkBalanceFrom, if_neg hlb, if_neg hrb, ih]
    rw [show stripEscapedBraces (c :: rest) = c :: stripEscapedBraces rest
      from by
      rw [stripEscapedBraces]
      all_goals intro c2 r hc hr
      all_goals first | exact absurd hc (by decide) | exact hsh c2 r hc hr]
    rw [hasUnderflowD_cons, netDepth_cons]
    have hdelta : braceDelta c = 0 := by simp [braceDelta, hlb, hrb]
    rw [hdelta]
    simp only [add_zero, zero_add]
    have hneg : decide ((d : Int) < 0) = false := by
      simp only [decide_eq_false_iff_not]
      omega
    rw [hneg, Bool.false_or]
    try split_ifs <;> first | rfl | omega
    all_goals intro c2 r hc hr
    all_goals first | exact absurd hc (by decide) | exact hsh c2 r hc hr

/-! ## Parser-state lemmas -/

theorem peekAux_pos_le (fuel : Nat) (tokens : List Token) (pos : Nat) :
    pos ≤ (peekAux fuel tokens pos).2 := by
  induction fuel generalizing pos with
  | zero => exact le_refl pos
  | succ n ih =>
    simp only [peekAux]
    split
    · split
      · exact le_trans (Nat.le_succ pos) (ih (pos + 1))
      · exact le_refl pos
    · exact le_refl pos

theorem peekAux_token (fuel : Nat) (tokens : List Token) (pos : Nat) :
    (tokens.get? (peekAux fuel tokens pos).2 = some (peekAux fuel tokens pos).1 ∧
      (peekAux fuel tokens pos).2 < tokens.length) ∨
    (peekAux fuel tokens pos).1 = Token.mk TokenType.eof "" 0 0 := by
  induction fuel generalizing pos with
  | zero => right; rfl
  | succ n ih =>
    simp only [peekAux]
    split
    · split
      · exact ih (pos + 1)
      · left
        rename_i h _
        exact ⟨by rw [List.get?_eq_get h], h⟩
    · right; rfl

theorem peek_tokens (st : PState) : ((peek st).2).tokens = st.tokens := rfl

theorem peek_errors (st : PState) : ((peek st).2).errors = st.errors := rfl

theorem peek_pos_le (st : PState) : st.pos ≤ ((peek st).2).pos :=
  peekAux_pos_le _ _ _

theorem peek_token (st : PState) :
    (st.tokens.get? ((peek st).2).pos = some (peek st).1 ∧ ((peek st).2).pos < st.tokens.length) ∨
    (peek st).1 = Token.mk TokenType.eof "" 0 0 :=
  peekAux_token _ _ _

theorem next_tokens (st : PState) : ((next st).2).tokens = st.tokens := by
  simp only [next]
  split <;> rfl

theorem next_errors (st : PState) : ((next st).2).errors = st.errors := by
  simp only [next]
  split <;> rfl

theorem next_pos_le (st : PState) : st.pos ≤ ((next st).2).pos := by
  simp only [next]
  split
  · exact peek_pos_le st
  · exact le_trans (peek_pos_le st) (Nat.le_succ _)

theorem pushErr_tokens (st : PState) (m : String) (r : Range) :
    (pushErr st m r).tokens = st.tokens := rfl

theorem pushErr_pos (st : PState) (m : String) (r : Range) :
    (pushErr st m r).pos = st.pos := rfl

theorem pushErr_errors (st : PState) (m : String) (r : Range) :
    (pushErr st m r).errors = st.errors ++ [ParseError.mk m r] := rfl

theorem parseArgs_state (fuel : Nat) (st : PState) (name : Token) (acc : List Argument) :
    ((parseArgs fuel st name acc).2.tokens = st.tokens) ∧
    ((parseArgs fuel st name acc).2.errors = st.errors) ∧
    st.pos ≤ (parseArgs fuel st name acc).2.pos := by
  induction fuel generalizing st acc with
  | zero => exact ⟨rfl, rfl, le_refl _⟩
  | succ n ih =>
    simp only [parseArgs]
    split
    · exact ⟨peek_tokens st, peek_errors st, peek_pos_le st⟩
    · split
      · exact ⟨peek_tokens st, peek_errors st, peek_pos_le st⟩
      · have h1 := ih (next (peek st).2).2 (acc ++ [Argument.mk (next (peek st).2).1])
        refine ⟨?_, ?_, ?_⟩
        · rw [h1.1, next_tokens, peek_tokens]
        · rw [h1.2.1, next_errors, peek_errors]
        · exact le_trans (peek_pos_le st) (le_trans (next_pos_le _) h1.2.2)

theorem parseDirective_state (fuel : Nat) :
    (∀ st, (parseDirective fuel st).2.tokens = st.tokens ∧
      st.pos ≤ (parseDirective fuel st).2.pos) ∧
    (∀ st d, (parseDirectiveBody fuel st d).2.tokens = st.tokens ∧
      st.pos ≤ (parseDirectiveBody fuel st d).2.pos) := by
  induction fuel with
  | zero => exact ⟨fun st => ⟨rfl, le_refl _⟩, fun st d => ⟨rfl, le_refl _⟩⟩
  | succ n ih =>
    constructor
    · intro st
      simp only [parseDirective]
      split
      · constructor
        · rw [next_tokens, pushErr_tokens, peek_tokens]
        · have h2 := next_pos_le (pushErr (peek st).2
            (expectedNameMsg (peek st).1.type) (peek st).1.range)
          rw [pushErr_pos] at h2
          exact le_trans (peek_pos_le st) h2
      · split
        · constructor
          · rw [(ih.2 _ _).1, next_tokens, peek_tokens, (parseArgs_state _ _ _ _).1,
              next_tokens, peek_tokens]
          · dsimp only
            have h1 := peek_pos_le st
            have h2 := next_pos_le (peek st).2
            have h3 := (parseArgs_state n (next (peek st).2).2 (next (peek st).2).1 []).2.2
            have h4 := peek_pos_le (parseArgs n (next (peek st).2).2 (next (peek st).2).1 []).2
            have h5 := next_pos_le
              (peek (parseArgs n (next (peek st).2).2 (next (peek st).2).1 []).2).2
            have h6 := (ih.2 (next
              (peek (parseArgs n (next (peek st).2).2 (next (peek st).2).1 []).2).2).2
              (Directive.mk (next (peek st).2).1
                (parseArgs n (next (peek st).2).2 (next (peek st).2).1 []).1 []
                (next (peek st).2).1.line (next (peek st).2).1.line)).2
            omega
        · constructor
          · rw [peek_tokens, (parseArgs_state _ _ _ _).1, next_tokens, peek_tokens]
          · refine le_trans (peek_pos_le st) (le_trans (next_pos_le _) ?_)
            exact le_trans (parseArgs_state _ _ _ _).2.2 (peek_pos_le _)
    · intro st d
      simp only [parseDirectiveBody]
      split
      · exact ⟨peek_tokens st, peek_pos_le st⟩
      · split
        · constructor
          · rw [next_tokens, peek_tokens]
          · exact le_trans (peek_pos_le st) (next_pos_le _)
        · constructor
          · rw [(ih.2 _ _).1, (ih.1 _).1, peek_tokens]
          · refine le_trans (peek_pos_le st) (le_trans (ih.1 _).2 (ih.2 _ _).2)

theorem parseSiteAddrs_state (fuel : Nat) (st : PState) (sb : SiteBlock) :
    (parseSiteAddrs fuel st sb).2.tokens = st.tokens ∧
    st.pos ≤ (parseSiteAddrs fuel st sb).2.pos := by
  induction fuel generalizing st sb with
  | zero => exact ⟨rfl, le_refl _⟩
  | succ n ih =>
    simp only [parseSiteAddrs]
    split
    · exact ⟨peek_tokens st, peek_pos_le st⟩
    · split
      · constructor
        · rw [next_tokens, pushErr_tokens, peek_tokens]
        · have h2 := next_pos_le (pushErr (peek st).2 unexpectedRbraceMsg (peek st).1.range)
          rw [pushErr_pos] at h2
          exact le_trans (peek_pos_le st) h2
      · constructor
        · rw [(ih _ _).1, next_tokens, peek_tokens]
        · exact le_trans (peek_pos_le st) (le_trans (next_pos_le _) (ih _ _).2)

theorem parseSiteBody_state (fuel : Nat) (st : PState) (sb : SiteBlock) :
    (parseSiteBody fuel st sb).2.tokens = st.tokens ∧
    st.pos ≤ (parseSiteBody fuel st sb).2.pos := by
  induction fuel generalizing st sb with
  | zero => exact ⟨rfl, le_refl _⟩
  | succ n ih =>
    simp only [parseSiteBody]
    split
    · exact ⟨peek_tokens st, peek_pos_le st⟩
    · split
      · constructor
        · rw [next_tokens, peek_tokens]
        · exact le_trans (peek_pos_le st) (next_pos_le _)
      · constructor
        · rw [(ih _ _).1, ((parseDirective_state n).1 _).1, peek_tokens]
        · exact le_trans (peek_pos_le st)
            (le_trans ((parseDirective_state n).1 _).2 (ih _ _).2)

theorem parseGlobalBody_state (fuel : Nat) (st : PState) (g : GlobalBlock) :
    (parseGlobalBody fuel st g).2.tokens = st.tokens ∧
    st.pos ≤ (parseGlobalBody fuel st g).2.pos := by
  induction fuel generalizing st g with
  | zero => exact ⟨rfl, le_refl _⟩
  | succ n ih =>
    simp only [parseGlobalBody]
    split
    · exact ⟨peek_tokens st, peek_pos_le st⟩
    · split
      · constructor
        · rw [next_tokens, peek_tokens]
        · exact le_trans (peek_pos_le st) (next_pos_le _)
      · constructor
        · rw [(ih _ _).1, ((parseDirective_state n).1 _).1, peek_tokens]
        · exact le_trans (peek_pos_le st)
            (le_trans ((parseDirective_state n).1 _).2 (ih _ _).2)

theorem lineMono_le (ts : List Token) (h : LineMono ts) (i j : Nat) (hij : i ≤ j)
    (a b : Token) (ha : ts.get? i = some a) (hb : ts.get? j = some b)
    (hbne : b.type ≠ TokenType.eof) : a.line ≤ b.line := by
  rcases eq_or_lt_of_le hij with rfl | hlt
  · rw [ha] at hb
    cases hb
    exact le_refl _
  · have hi : i < ts.length := (List.get?_eq_some.mp ha).1
    have hj : j < ts.length := (List.get?_eq_some.mp hb).1
    have hrel := List.pairwise_iff_get.mp h ⟨i, hi⟩ ⟨j, hj⟩ hlt
    rw [List.get?_eq_get hi] at ha
    rw [List.get?_eq_get hj] at hb
    cases ha
    cases hb
    rcases hrel with hrel | hrel
    · exact absurd hrel hbne
    · exact hrel

theorem string_ne_of_get (s t : String) (i : Nat)
    (h : s.data.get? i ≠ t.data.get? i) : s ≠ t :=
  fun he => h (by rw [he])

theorem unclosedDirMsg_get9 (v : String) : (unclosedDirMsg v).data.get? 9 = some 'b' := by
  rw [unclosedDirMsg, goQuote]
  rw [String.data_append]
  rw [List.get?_append (by decide)]
  decide

theorem unclosedDirMsg_get0 (v : String) : (unclosedDirMsg v).data.get? 0 = some 'u' := by
  rw [unclosedDirMsg, goQuote]
  rw [String.data_append]
  rw [List.get?_append (by decide)]
  decide

theorem unclosedSiteMsg_get9 (v : String) : (unclosedSiteMsg v).data.get? 9 = some 's' := by
  rw [unclosedSiteMsg, goQuote]
  rw [String.data_append]
  rw [List.get?_append (by decide)]
  decide

theorem unclosedSiteMsg_get0 (v : String) : (unclosedSiteMsg v).data.get? 0 = some 'u' := by
  rw [unclosedSiteMsg, goQuote]
  rw [String.data_append]
  rw [List.get?_append (by decide)]
  decide

theorem expectedNameMsg_get0 (tt : TokenType) :
    (expectedNameMsg tt).data.get? 0 = some 'e' := by
  rw [expectedNameMsg]
  rw [String.data_append]
  rw [List.get?_append (by decide)]
  decide

theorem expectedNameMsg_get9 (tt : TokenType) :
    (expectedNameMsg tt).data.get? 9 = some 'd' := by
  rw [expectedNameMsg]
  rw [String.data_append]
  rw [List.get?_append (by decide)]
  decide

theorem unclosedDirMsg_ne_expectedNameMsg (v : String) (tt : TokenType) :
    unclosedDirMsg v ≠ expectedNameMsg tt := by
  refine string_ne_of_get _ _ 0 ?_
  rw [unclosedDirMsg_get0, expectedNameMsg_get0]
  decide

theorem unclosedSiteMsg_ne_expectedNameMsg (v : String) (tt : TokenType) :
    unclosedSiteMsg v ≠ expectedNameMsg tt := by
  refine string_ne_of_get _ _ 0 ?_
  rw [unclosedSiteMsg_get0, expectedNameMsg_get0]
  decide

theorem unclosedSiteMsg_ne_unclosedDirMsg (v w : String) :
    unclosedSiteMsg v ≠ unclosedDirMsg w := by
  refine string_ne_of_get _ _ 9 ?_
  rw [unclosedSiteMsg_get9, unclosedDirMsg_get9]
  decide

theorem unclosedGlobalMsg_ne_expectedNameMsg (tt : TokenType) :
    unclosedGlobalMsg ≠ expectedNameMsg tt := by
  refine string_ne_of_get _ _ 0 ?_
  rw [expectedNameMsg_get0]
  decide

theorem unclosedGlobalMsg_ne_unclosedDirMsg (w : String) :
    unclosedGlobalMsg ≠ unclosedDirMsg w := by
  refine string_ne_of_get _ _ 9 ?_
  rw [unclosedDirMsg_get9]
  decide

theorem expectedBraceMsg_ne_unexpectedRbraceMsg : expectedBraceMsg ≠ unexpectedRbraceMsg := by
  decide

theorem expectedBraceMsg_ne_expectedNameMsg (tt : TokenType) :
    expectedBraceMsg ≠ expectedNameMsg tt := by
  refine string_ne_of_get _ _ 9 ?_
  rw [expectedNameMsg_get9]
  decide

theorem expectedBraceMsg_ne_unclosedDirMsg (w : String) :
    expectedBraceMsg ≠ unclosedDirMsg w := by
  refine string_ne_of_get _ _ 0 ?_
  rw [unclosedDirMsg_get0]
  decide

theorem expectedBraceMsg_ne_unclosedSiteMsg (w : String) :
    expectedBraceMsg ≠ unclosedSiteMsg w := by
  refine string_ne_of_get _ _ 0 ?_
  rw [unclosedSiteMsg_get0]
  decide

theorem peekAux_full (fuel : Nat) (ts : List Token) (pos : Nat)
    (hf : ts.length ≤ pos + fuel) :
    ((peekAux fuel ts pos).1 = eofToken ∧ ts.length ≤ (peekAux fuel ts pos).2) ∨
    (∃ h : (peekAux fuel ts pos).2 < ts.length,
      (peekAux fuel ts pos).1 = ts.get ⟨(peekAux fuel ts pos).2, h⟩ ∧
      ¬((peekAux fuel ts pos).1.type = TokenType.comment ∨
        (peekAux fuel ts pos).1.type = TokenType.newline)) := by
  induction fuel generalizing pos with
  | zero =>
    refine Or.inl ⟨rfl, ?_⟩
    show ts.length ≤ pos
    omega
  | succ n ih =>
    simp only [peekAux]
    split
    · split
      · exact ih (pos + 1) (by omega)
      · rename_i hlt hskip
        exact Or.inr ⟨hlt, rfl, hskip⟩
    · rename_i hge
      refine Or.inl ⟨rfl, ?_⟩
      show ts.length ≤ pos
      omega

theorem peek_spec (st : PState) :
    ((peek st).1 = eofToken ∧ st.tokens.length ≤ (peek st).2.pos) ∨
    (∃ h : (peek st).2.pos < st.tokens.length,
      (peek st).1 = st.tokens.get ⟨(peek st).2.pos, h⟩ ∧
      ¬((peek st).1.type = TokenType.comment ∨ (peek st).1.type = TokenType.newline)) :=
  peekAux_full (st.tokens.length + 1 - st.pos) st.tokens st.pos (by omega)

theorem peekAux_ge (fuel : Nat) (ts : List Token) (pos : Nat) (h : ts.length ≤ pos) :
    peekAux fuel ts pos = (eofToken, pos) := by
  cases fuel with
  | zero => rfl
  | succ n =>
    simp only [peekAux]
    rw [dif_neg (by omega)]
    rfl

theorem peekAux_found (fuel : Nat) (ts : List Token) (pos : Nat) (h : pos < ts.length)
    (hns : ¬((ts.get ⟨pos, h⟩).type = TokenType.comment ∨
      (ts.get ⟨pos, h⟩).type = TokenType.newline))
    (hf : 1 ≤ fuel) :
    peekAux fuel ts pos = (ts.get ⟨pos, h⟩, pos) := by
  cases fuel with
  | zero => omega
  | succ n =>
    simp only [peekAux]
    rw [dif_pos h, if_neg hns]

theorem peek_idem_fst (st : PState) : (peek (peek st).2).1 = (peek st).1 := by
  have e : (peek (peek st).2).1 =
      (peekAux (st.tokens.length + 1 - (peek st).2.pos) st.tokens (peek st).2.pos).1 := rfl
  rcases peek_spec st with ⟨h1, h2⟩ | ⟨h, h1, h2⟩
  · rw [e, peekAux_ge _ _ _ h2]
    exact h1.symm
  · rw [e, peekAux_found _ _ _ h (by rw [← h1]; exact h2) (by omega)]
    exact h1.symm

theorem peek_pushErr_fst (st : PState) (m : String) (r : Range) :
    (peek (pushErr st m r)).1 = (peek st).1 := rfl

theorem next_fst (st : PState) : (next st).1 = (peek st).1 := by
  simp only [next]
  split <;> rfl

theorem msgs_peek (st : PState) : msgs (peek st).2 = msgs st := by
  simp only [msgs, peek_errors]

theorem msgs_next (st : PState) : msgs (next st).2 = msgs st := by
  simp only [msgs, next_errors]

theorem msgs_pushErr (st : PState) (m : String) (r : Range) :
    msgs (pushErr st m r) = msgs st ++ [m] := by
  simp only [msgs, pushErr_errors, List.map_append]
  rfl

theorem msgs_parseArgs (fuel : Nat) (st : PState) (name : Token) (acc : List Argument) :
    msgs (parseArgs fuel st name acc).2 = msgs st := by
  simp only [msgs, (parseArgs_state fuel st name acc).2.1]

theorem pushBody_endLine (d x : Directive) : (d.pushBody x).endLine = d.endLine := by
  cases d
  rfl

theorem pushBody_startLine (d x : Directive) : (d.pushBody x).startLine = d.startLine := by
  cases d
  rfl

theorem setEndLine_eq (n : Token) (a : List Argument) (b : List Directive) (s e l : Nat) :
    (Directive.mk n a b s e).setEndLine l = Directive.mk n a b s l := rfl

theorem parseDirectiveBody_eofState (fuel : Nat) (st : PState) (d : Directive)
    (h : (peek st).1.type = TokenType.eof) :
    (parseDirectiveBody fuel st d).1 = d ∧
    (peek (parseDirectiveBody fuel st d).2).1.type = TokenType.eof := by
  cases fuel with
  | zero => exact ⟨rfl, h⟩
  | succ n =>
    simp only [parseDirectiveBody]
    rw [if_pos h]
    refine ⟨rfl, ?_⟩
    rw [peek_pushErr_fst, peek_idem_fst]
    exact h

theorem parseDirective_msgs (fuel : Nat) :
    (∀ st,
      (∀ m, m ∈ msgs (parseDirective fuel st).2 → m ∈ msgs st ∨
        (∃ tt, m = expectedNameMsg tt) ∨ (∃ v, m = unclosedDirMsg v)) ∧
      (∀ v, unclosedDirMsg v ∈ msgs (parseDirective fuel st).2 →
        unclosedDirMsg v ∉ msgs st →
        (peek (parseDirective fuel st).2).1.type = TokenType.eof)) ∧
    (∀ st d,
      (∀ m, m ∈ msgs (parseDirectiveBody fuel st d).2 → m ∈ msgs st ∨
        (∃ tt, m = expectedNameMsg tt) ∨ (∃ v, m = unclosedDirMsg v)) ∧
      (∀ v, unclosedDirMsg v ∈ msgs (parseDirectiveBody fuel st d).2 →
        unclosedDirMsg v ∉ msgs st →
        (peek (parseDirectiveBody fuel st d).2).1.type = TokenType.eof ∧
        (parseDirectiveBody fuel st d).1.endLine = d.endLine)) := by
  induction fuel with
  | zero =>
    exact ⟨fun st => ⟨fun m hm => Or.inl hm, fun v hv hnv => absurd hv hnv⟩,
      fun st d => ⟨fun m hm => Or.inl hm, fun v hv hnv => absurd hv hnv⟩⟩
  | succ n ih =>
    constructor
    · intro st
      by_cases hc : (peek st).1.type ≠ TokenType.ident ∧ (peek st).1.type ≠ TokenType.string
      · have he : parseDirective (n + 1) st =
            (none, (next (pushErr (peek st).2 (expectedNameMsg (peek st).1.type)
              (peek st).1.range)).2) := by
          simp only [parseDirective]
          rw [if_pos hc]
        constructor
        · intro m hm
          rw [he, msgs_next, msgs_pushErr, msgs_peek] at hm
          rcases List.mem_append.mp hm with h1 | h1
          · exact Or.inl h1
          · exact Or.inr (Or.inl ⟨(peek st).1.type, List.mem_singleton.mp h1⟩)
        · intro v hv hnv
          rw [he, msgs_next, msgs_pushErr, msgs_peek] at hv
          rcases List.mem_append.mp hv with h1 | h1
          · exact absurd h1 hnv
          · exact absurd (List.mem_singleton.mp h1)
              (unclosedDirMsg_ne_expectedNameMsg v (peek st).1.type)
      · by_cases hb : (peek (parseArgs n (next (peek st).2).2 (next (peek st).2).1 []).2).1.type
            = TokenType.lbrace
        · have he : parseDirective (n + 1) st =
              (some (parseDirectiveBody n
                  (next (peek (parseArgs n (next (peek st).2).2 (next (peek st).2).1 []).2).2).2
                  (Directive.mk (next (peek st).2).1
                    (parseArgs n (next (peek st).2).2 (next (peek st).2).1 []).1 []
                    (next (peek st).2).1.line (next (peek st).2).1.line)).1,
                (parseDirectiveBody n
                  (next (peek (parseArgs n (next (peek st).2).2 (next (peek st).2).1 []).2).2).2
                  (Directive.mk (next (peek st).2).1
                    (parseArgs n (next (peek st).2).2 (next (peek st).2).1 []).1 []
                    (next (peek st).2).1.line (next (peek st).2).1.line)).2) := by
            simp only [parseDirective]
            rw [if_neg hc, if_pos hb]
          have hmid : msgs (next (peek (parseArgs n (next (peek st).2).2
              (next (peek st).2).1 []).2).2).2 = msgs st := by
            rw [msgs_next, msgs_peek, msgs_parseArgs, msgs_next, msgs_peek]
          constructor
          · intro m hm
            rw [he] at hm
            rcases (ih.2 _ _).1 m hm with h1 | h1
            · rw [hmid] at h1
              exact Or.inl h1
            · exact Or.inr h1
          · intro v hv hnv
            rw [he] at hv ⊢
            exact ((ih.2 _ _).2 v hv (by rw [hmid]; exact hnv)).1
        · have he : parseDirective (n + 1) st =
              (some (Directive.mk (next (peek st).2).1
                  (parseArgs n (next (peek st).2).2 (next (peek st).2).1 []).1 []
                  (next (peek st).2).1.line (next (peek st).2).1.line),
                (peek (parseArgs n (next (peek st).2).2 (next (peek st).2).1 []).2).2) := by
            simp only [parseDirective]
            rw [if_neg hc, if_neg hb]
          have hmid : msgs (peek (parseArgs n (next (peek st).2).2
              (next (peek st).2).1 []).2).2 = msgs st := by
            rw [msgs_peek, msgs_parseArgs, msgs_next, msgs_peek]
          constructor
          · intro m hm
            rw [he] at hm
            dsimp only at hm
            rw [hmid] at hm
            exact Or.inl hm
          · intro v hv hnv
            rw [he] at hv
            dsimp only at hv
            rw [hmid] at hv
            exact absurd hv hnv
    · intro st d
      by_cases h1 : (peek st).1.type = TokenType.eof
      · have he : parseDirectiveBody (n + 1) st d =
            (d, pushErr (peek st).2 (unclosedDirMsg d.name.value) (peek st).1.range) := by
          simp only [parseDirectiveBody]
          rw [if_pos h1]
        constructor
        · intro m hm
          rw [he, msgs_pushErr, msgs_peek] at hm
          rcases List.mem_append.mp hm with h2 | h2
          · exact Or.inl h2
          · exact Or.inr (Or.inr ⟨d.name.value, List.mem_singleton.mp h2⟩)
        · intro v hv hnv
          rw [he]
          refine ⟨?_, rfl⟩
          rw [peek_pushErr_fst, peek_idem_fst]
          exact h1
      · by_cases h2 : (peek st).1.type = TokenType.rbrace
        · have he : parseDirectiveBody (n + 1) st d =
              (d.setEndLine (peek st).1.line, (next (peek st).2).2) := by
            simp only [parseDirectiveBody]
            rw [if_neg h1, if_pos h2]
          constructor
          · intro m hm
            rw [he, msgs_next, msgs_peek] at hm
            exact Or.inl hm
          · intro v hv hnv
            rw [he, msgs_next, msgs_peek] at hv
            exact absurd hv hnv
        · have he : parseDirectiveBody (n + 1) st d =
              parseDirectiveBody n (parseDirective n (peek st).2).2
                (match (parseDirective n (peek st).2).1 with
                  | some sub => d.pushBody sub
                  | none => d) := by
            simp only [parseDirectiveBody]
            rw [if_neg h1, if_neg h2]
          have hd' : (match (parseDirective n (peek st).2).1 with
              | some sub => d.pushBody sub
              | none => d).endLine = d.endLine := by
            cases (parseDirective n (peek st).2).1 with
            | none => rfl
            | some sub => exact pushBody_endLine d sub
          constructor
          · intro m hm
            rw [he] at hm
            rcases (ih.2 _ _).1 m hm with h3 | h3
            · rcases (ih.1 (peek st).2).1 m h3 with h4 | h4
              · rw [msgs_peek] at h4
                exact Or.inl h4
              · exact Or.inr h4
            · exact Or.inr h3
          · intro v hv hnv
            rw [he] at hv
            by_cases hmid : unclosedDirMsg v ∈ msgs (parseDirective n (peek st).2).2
            · have heof := (ih.1 (peek st).2).2 v hmid (by rw [msgs_peek]; exact hnv)
              have hE2 := parseDirectiveBody_eofState n (parseDirective n (peek st).2).2
                (match (parseDirective n (peek st).2).1 with
                  | some sub => d.pushBody sub
                  | none => d) heof
              rw [he]
              exact ⟨hE2.2, by rw [hE2.1, hd']⟩
            · have h4 := (ih.2 _ _).2 v hv hmid
              rw [he]
              exact ⟨h4.1, by rw [h4.2, hd']⟩

theorem parseSiteBody_unclosed (fuel : Nat) (st : PState) (sb : SiteBlock) (v : String)
    (hnv : unclosedSiteMsg v ∉ msgs st)
    (hv : unclosedSiteMsg v ∈ msgs (parseSiteBody fuel st sb).2) :
    (parseSiteBody fuel st sb).1.endLine = sb.endLine := by
  induction fuel generalizing st sb with
  | zero => exact absurd hv hnv
  | succ n ih =>
    by_cases h1 : (peek st).1.type = TokenType.eof
    · have he : parseSiteBody (n + 1) st sb =
          (sb, pushErr (peek st).2 (unclosedSiteMsg (firstAddrValue sb)) (peek st).1.range) := by
        simp only [parseSiteBody]
        rw [if_pos h1]
      rw [he]
    · by_cases h2 : (peek st).1.type = TokenType.rbrace
      · have he : parseSiteBody (n + 1) st sb =
            (SiteBlock.mk sb.addresses sb.directives sb.startLine (peek st).1.line,
              (next (peek st).2).2) := by
          simp only [parseSiteBody]
          rw [if_neg h1, if_pos h2]
        rw [he, msgs_next, msgs_peek] at hv
        exact absurd hv hnv
      · have he : parseSiteBody (n + 1) st sb =
            parseSiteBody n (parseDirective n (peek st).2).2
              (match (parseDirective n (peek st).2).1 with
                | some d => SiteBlock.mk sb.addresses (sb.directives ++ [d])
                    sb.startLine sb.endLine
                | none => sb) := by
          simp only [parseSiteBody]
          rw [if_neg h1, if_neg h2]
        have hmid : unclosedSiteMsg v ∉ msgs (parseDirective n (peek st).2).2 := by
          intro hin
          rcases ((parseDirective_msgs n).1 (peek st).2).1 _ hin with h3 | h3 | h3
          · rw [msgs_peek] at h3
            exact hnv h3
          · obtain ⟨tt, h4⟩ := h3
            exact unclosedSiteMsg_ne_expectedNameMsg v tt h4
          · obtain ⟨w, h4⟩ := h3
            exact unclosedSiteMsg_ne_unclosedDirMsg v w h4
        rw [he] at hv ⊢
        have hend : (match (parseDirective n (peek st).2).1 with
            | some d => SiteBlock.mk sb.addresses (sb.directives ++ [d])
                sb.startLine sb.endLine
            | none => sb).endLine = sb.endLine := by
          cases (parseDirective n (peek st).2).1 with
          | none => rfl
          | some d => rfl
        rw [ih _ _ hmid hv, hend]

theorem parseGlobalBody_unclosed (fuel : Nat) (st : PState) (g : GlobalBlock)
    (hnv : unclosedGlobalMsg ∉ msgs st)
    (hv : unclosedGlobalMsg ∈ msgs (parseGlobalBody fuel st g).2) :
    (parseGlobalBody fuel st g).1.endLine = g.endLine := by
  induction fuel generalizing st g with
  | zero => exact absurd hv hnv
  | succ n ih =>
    by_cases h1 : (peek st).1.type = TokenType.eof
    · have he : parseGlobalBody (n + 1) st g =
          (g, pushErr (peek st).2 unclosedGlobalMsg (peek st).1.range) := by
        simp only [parseGlobalBody]
        rw [if_pos h1]
      rw [he]
    · by_cases h2 : (peek st).1.type = TokenType.rbrace
      · have he : parseGlobalBody (n + 1) st g =
            (GlobalBlock.mk g.directives g.startLine (peek st).1.line,
              (next (peek st).2).2) := by
          simp only [parseGlobalBody]
          rw [if_neg h1, if_pos h2]
        rw [he, msgs_next, msgs_peek] at hv
        exact absurd hv hnv
      · have he : parseGlobalBody (n + 1) st g =
            parseGlobalBody n (parseDirective n (peek st).2).2
              (match (parseDirective n (peek st).2).1 with
                | some d => GlobalBlock.mk (g.directives ++ [d]) g.startLine g.endLine
                | none => g) := by
          simp only [parseGlobalBody]
          rw [if_neg h1, if_neg h2]
        have hmid : unclosedGlobalMsg ∉ msgs (parseDirective n (peek st).2).2 := by
          intro hin
          rcases ((parseDirective_msgs n).1 (peek st).2).1 _ hin with h3 | h3 | h3
          · rw [msgs_peek] at h3
            exact hnv h3
          · obtain ⟨tt, h4⟩ := h3
            exact unclosedGlobalMsg_ne_expectedNameMsg tt h4
          · obtain ⟨w, h4⟩ := h3
            exact unclosedGlobalMsg_ne_unclosedDirMsg w h4
        rw [he] at hv ⊢
        have hend : (match (parseDirective n (peek st).2).1 with
            | some d => GlobalBlock.mk (g.directives ++ [d]) g.startLine g.endLine
            | none => g).endLine = g.endLine := by
          cases (parseDirective n (peek st).2).1 with
          | none => rfl
          | some d => rfl
        rw [ih _ _ hmid hv, hend]

theorem parseSiteAddrs_props (fuel : Nat) (st : PState) (sb : SiteBlock) :
    (∀ m, m ∈ msgs (parseSiteAddrs fuel st sb).2 → m ∈ msgs st ∨ m = unexpectedRbraceMsg) ∧
    (∀ sb', (parseSiteAddrs fuel st sb).1 = some sb' →
      sb'.directives = sb.directives ∧ sb'.endLine = sb.endLine) := by
  induction fuel generalizing st sb with
  | zero =>
    refine ⟨fun m hm => Or.inl hm, fun sb' h => ?_⟩
    cases h
    exact ⟨rfl, rfl⟩
  | succ n ih =>
    by_cases h1 : (peek st).1.type = TokenType.eof ∨ (peek st).1.type = TokenType.lbrace
    · have he : parseSiteAddrs (n + 1) st sb = (some sb, (peek st).2) := by
        simp only [parseSiteAddrs]
        rw [if_pos h1]
      rw [he]
      refine ⟨fun m hm => Or.inl (by rw [msgs_peek] at hm; exact hm), fun sb' h => ?_⟩
      cases h
      exact ⟨rfl, rfl⟩
    · by_cases h2 : (peek st).1.type = TokenType.rbrace
      · have he : parseSiteAddrs (n + 1) st sb =
            (none, (next (pushErr (peek st).2 unexpectedRbraceMsg (peek st).1.range)).2) := by
          simp only [parseSiteAddrs]
          rw [if_neg h1, if_pos h2]
        rw [he]
        constructor
        · intro m hm
          rw [msgs_next, msgs_pushErr, msgs_peek] at hm
          rcases List.mem_append.mp hm with h3 | h3
          · exact Or.inl h3
          · exact Or.inr (List.mem_singleton.mp h3)
        · intro sb' h
          cases h
      · by_cases h3 : sb.addresses = []
        · have he : parseSiteAddrs (n + 1) st sb =
              parseSiteAddrs n (next (peek st).2).2
                (SiteBlock.mk (sb.addresses ++ [(next (peek st).2).1]) sb.directives
                  (peek st).1.line sb.endLine) := by
            simp only [parseSiteAddrs]
            rw [if_neg h1, if_neg h2, if_pos h3]
          rw [he]
          constructor
          · intro m hm
            rcases (ih _ _).1 m hm with h4 | h4
            · rw [msgs_next, msgs_peek] at h4
              exact Or.inl h4
            · exact Or.inr h4
          · intro sb' h
            have h5 := (ih (next (peek st).2).2
              (SiteBlock.mk (sb.addresses ++ [(next (peek st).2).1]) sb.directives
                (peek st).1.line sb.endLine)).2 sb' h
            exact ⟨h5.1, h5.2⟩
        · have he : parseSiteAddrs (n + 1) st sb =
              parseSiteAddrs n (next (peek st).2).2
                (SiteBlock.mk (sb.addresses ++ [(next (peek st).2).1]) sb.directives
                  sb.startLine sb.endLine) := by
            simp only [parseSiteAddrs]
            rw [if_neg h1, if_neg h2, if_neg h3]
          rw [he]
          constructor
          · intro m hm
            rcases (ih _ _).1 m hm with h4 | h4
            · rw [msgs_next, msgs_peek] at h4
              exact Or.inl h4
            · exact Or.inr h4
          · intro sb' h
            have h5 := (ih (next (peek st).2).2
              (SiteBlock.mk (sb.addresses ++ [(next (peek st).2).1]) sb.directives
                sb.startLine sb.endLine)).2 sb' h
            exact ⟨h5.1, h5.2⟩

theorem parseSiteBody_msgs (fuel : Nat) (st : PState) (sb : SiteBlock) :
    ∀ m, m ∈ msgs (parseSiteBody fuel st sb).2 → m ∈ msgs st ∨
      (∃ v, m = unclosedSiteMsg v) ∨ (∃ tt, m = expectedNameMsg tt) ∨
      (∃ v, m = unclosedDirMsg v) := by
  induction fuel generalizing st sb with
  | zero => exact fun m hm => Or.inl hm
  | succ n ih =>
    by_cases h1 : (peek st).1.type = TokenType.eof
    · have he : parseSiteBody (n + 1) st sb =
          (sb, pushErr (peek st).2 (unclosedSiteMsg (firstAddrValue sb)) (peek st).1.range) := by
        simp only [parseSiteBody]
        rw [if_pos h1]
      intro m hm
      rw [he, msgs_pushErr, msgs_peek] at hm
      rcases List.mem_append.mp hm with h3 | h3
      · exact Or.inl h3
      · exact Or.inr (Or.inl ⟨firstAddrValue sb, List.mem_singleton.mp h3⟩)
    · by_cases h2 : (peek st).1.type = TokenType.rbrace
      · have he : parseSiteBody (n + 1) st sb =
            (SiteBlock.mk sb.addresses sb.directives sb.startLine (peek st).1.line,
              (next (peek st).2).2) := by
          simp only [parseSiteBody]
          rw [if_neg h1, if_pos h2]
        intro m hm
        rw [he, msgs_next, msgs_peek] at hm
        exact Or.inl hm
      · have he : parseSiteBody (n + 1) st sb =
            parseSiteBody n (parseDirective n (peek st).2).2
              (match (parseDirective n (peek st).2).1 with
                | some d => SiteBlock.mk sb.addresses (sb.directives ++ [d])
                    sb.startLine sb.endLine
                | none => sb) := by
          simp only [parseSiteBody]
          rw [if_neg h1, if_neg h2]
        intro m hm
        rw [he] at hm
        rcases ih _ _ m hm with h3 | h3
        · rcases ((parseDirective_msgs n).1 (peek st).2).1 m h3 with h4 | h4 | h4
          · rw [msgs_peek] at h4
            exact Or.inl h4
          · exact Or.inr (Or.inr (Or.inl h4))
          · exact Or.inr (Or.inr (Or.inr h4))
        · exact Or.inr h3

theorem parseDirective_linesOK (fuel : Nat) :
    (∀ st, LineMono st.tokens →
      ∀ d, (parseDirective fuel st).1 = some d → LinesOK d) ∧
    (∀ st d, LineMono st.tokens → LinesOK d →
      (∀ i t, st.pos ≤ i → st.tokens.get? i = some t → t.type ≠ TokenType.eof →
        d.startLine ≤ t.line) →
      LinesOK (parseDirectiveBody fuel st d).1) := by
  induction fuel with
  | zero =>
    constructor
    · intro st _ d h
      exact Option.noConfusion h
    · intro st d _ hOK _
      exact hOK
  | succ n ih =>
    constructor
    · intro st hM d hd
      by_cases hc : (peek st).1.type ≠ TokenType.ident ∧ (peek st).1.type ≠ TokenType.string
      · have he : parseDirective (n + 1) st =
            (none, (next (pushErr (peek st).2 (expectedNameMsg (peek st).1.type)
              (peek st).1.range)).2) := by
          simp only [parseDirective]
          rw [if_pos hc]
        rw [he] at hd
        exact Option.noConfusion hd
      · have htype : (peek st).1.type = TokenType.ident ∨
            (peek st).1.type = TokenType.string := by
          rcases not_and_or.mp hc with h | h
          · exact Or.inl (not_not.mp h)
          · exact Or.inr (not_not.mp h)
        have hnm : (next (peek st).2).1 = (peek st).1 := by
          rw [next_fst, peek_idem_fst]
        have hget0 : st.tokens.get? (peek st).2.pos = some (peek st).1 := by
          rcases peek_spec st with ⟨h1, _⟩ | ⟨hlt, h1, _⟩
          · rcases htype with h | h <;> rw [h1] at h <;> exact absurd h (by decide)
          · rw [List.get?_eq_get hlt, h1]
        by_cases hb : (peek (parseArgs n (next (peek st).2).2 (next (peek st).2).1 []).2).1.type
            = TokenType.lbrace
        · have he : parseDirective (n + 1) st =
              (some (parseDirectiveBody n
                  (next (peek (parseArgs n (next (peek st).2).2 (next (peek st).2).1 []).2).2).2
                  (Directive.mk (next (peek st).2).1
                    (parseArgs n (next (peek st).2).2 (next (peek st).2).1 []).1 []
                    (next (peek st).2).1.line (next (peek st).2).1.line)).1,
                (parseDirectiveBody n
                  (next (peek (parseArgs n (next (peek st).2).2 (next (peek st).2).1 []).2).2).2
                  (Directive.mk (next (peek st).2).1
                    (parseArgs n (next (peek st).2).2 (next (peek st).2).1 []).1 []
                    (next (peek st).2).1.line (next (peek st).2).1.line)).2) := by
            simp only [parseDirective]
            rw [if_neg hc, if_pos hb]
          rw [he] at hd
          dsimp only at hd
          injection hd with hd
          subst hd
          have hts : (next (peek (parseArgs n (next (peek st).2).2
              (next (peek st).2).1 []).2).2).2.tokens = st.tokens := by
            rw [next_tokens, peek_tokens, (parseArgs_state _ _ _ _).1, next_tokens, peek_tokens]
          refine ih.2 _ _ (by rw [hts]; exact hM)
            (LinesOK.mk _ _ _ _ _ (le_refl _) (fun d hd => absurd hd (List.not_mem_nil d))) ?_
          intro i t hi hget htne
          rw [hts] at hget
          have h2 := next_pos_le (peek st).2
          have h3 := (parseArgs_state n (next (peek st).2).2 (next (peek st).2).1 []).2.2
          have h4 := peek_pos_le (parseArgs n (next (peek st).2).2 (next (peek st).2).1 []).2
          have h5 := next_pos_le
            (peek (parseArgs n (next (peek st).2).2 (next (peek st).2).1 []).2).2
          have hile : (peek st).2.pos ≤ i := by omega
          have := lineMono_le st.tokens hM (peek st).2.pos i hile (peek st).1 t hget0 hget htne
          show (next (peek st).2).1.line ≤ t.line
          rw [hnm]
          exact this
        · have he : parseDirective (n + 1) st =
              (some (Directive.mk (next (peek st).2).1
                  (parseArgs n (next (peek st).2).2 (next (peek st).2).1 []).1 []
                  (next (peek st).2).1.line (next (peek st).2).1.line),
                (peek (parseArgs n (next (peek st).2).2 (next (peek st).2).1 []).2).2) := by
            simp only [parseDirective]
            rw [if_neg hc, if_neg hb]
          rw [he] at hd
          dsimp only at hd
          injection hd with hd
          subst hd
          exact LinesOK.mk _ _ _ _ _ (le_refl _) (fun d hd => absurd hd (List.not_mem_nil d))
    · intro st d hM hOK hFut
      by_cases h1 : (peek st).1.type = TokenType.eof
      · have he : parseDirectiveBody (n + 1) st d =
            (d, pushErr (peek st).2 (unclosedDirMsg d.name.value) (peek st).1.range) := by
          simp only [parseDirectiveBody]
          rw [if_pos h1]
        rw [he]
        exact hOK
      · by_cases h2 : (peek st).1.type = TokenType.rbrace
        · have he : parseDirectiveBody (n + 1) st d =
              (d.setEndLine (peek st).1.line, (next (peek st).2).2) := by
            simp only [parseDirectiveBody]
            rw [if_neg h1, if_pos h2]
          rw [he]
          have hget0 : st.tokens.get? (peek st).2.pos = some (peek st).1 := by
            rcases peek_spec st with ⟨hh1, _⟩ | ⟨hlt, hh1, _⟩
            · rw [hh1] at h2
              exact absurd h2 (by decide)
            · rw [List.get?_eq_get hlt, hh1]
          have hline := hFut (peek st).2.pos (peek st).1 (peek_pos_le st) hget0 h1
          obtain ⟨nm, a, b, s, e⟩ := d
          cases hOK with
          | mk _ _ _ _ _ hse hbody =>
            rw [setEndLine_eq]
            exact LinesOK.mk _ _ _ _ _ hline hbody
        · have he : parseDirectiveBody (n + 1) st d =
              parseDirectiveBody n (parseDirective n (peek st).2).2
                (match (parseDirective n (peek st).2).1 with
                  | some sub => d.pushBody sub
                  | none => d) := by
            simp only [parseDirectiveBody]
            rw [if_neg h1, if_neg h2]
          rw [he]
          have hts : (parseDirective n (peek st).2).2.tokens = st.tokens := by
            rw [((parseDirective_state n).1 _).1, peek_tokens]
          have hpos : st.pos ≤ (parseDirective n (peek st).2).2.pos :=
            le_trans (peek_pos_le st) ((parseDirective_state n).1 _).2
          have hOK' : LinesOK (match (parseDirective n (peek st).2).1 with
              | some sub => d.pushBody sub
              | none => d) := by
            rcases hr : (parseDirective n (peek st).2).1 with _ | sub
            · exact hOK
            · have hsub : LinesOK sub :=
                ih.1 (peek st).2 (by rw [peek_tokens]; exact hM) sub hr
              obtain ⟨nm, a, b, s, e⟩ := d
              cases hOK with
              | mk _ _ _ _ _ hse hbody =>
                refine LinesOK.mk _ _ _ _ _ hse ?_
                intro d hd
                rcases List.mem_append.mp hd with hd | hd
                · exact hbody d hd
                · rw [List.mem_singleton.mp hd]
                  exact hsub
          have hstart : (match (parseDirective n (peek st).2).1 with
              | some sub => d.pushBody sub
              | none => d).startLine = d.startLine := by
            cases (parseDirective n (peek st).2).1 with
            | none => rfl
            | some sub => exact pushBody_startLine d sub
          refine ih.2 _ _ (by rw [hts]; exact hM) hOK' ?_
          intro i t hi hget htne
          rw [hts] at hget
          rw [hstart]
          exact hFut i t (le_trans hpos hi) hget htne

theorem parseSiteBody_linesOK (fuel : Nat) (st : PState) (sb : SiteBlock)
    (hM : LineMono st.tokens) (hsb : ∀ d ∈ sb.directives, LinesOK d) :
    ∀ d ∈ (parseSiteBody fuel st sb).1.directives, LinesOK d := by
  induction fuel generalizing st sb with
  | zero => exact hsb
  | succ n ih =>
    by_cases h1 : (peek st).1.type = TokenType.eof
    · have he : parseSiteBody (n + 1) st sb =
          (sb, pushErr (peek st).2 (unclosedSiteMsg (firstAddrValue sb)) (peek st).1.range) := by
        simp only [parseSiteBody]
        rw [if_pos h1]
      rw [he]
      exact hsb
    · by_cases h2 : (peek st).1.type = TokenType.rbrace
      · have he : parseSiteBody (n + 1) st sb =
            (SiteBlock.mk sb.addresses sb.directives sb.startLine (peek st).1.line,
              (next (peek st).2).2) := by
          simp only [parseSiteBody]
          rw [if_neg h1, if_pos h2]
        rw [he]
        exact hsb
      · have he : parseSiteBody (n + 1) st sb =
            parseSiteBody n (parseDirective n (peek st).2).2
              (match (parseDirective n (peek st).2).1 with
                | some d => SiteBlock.mk sb.addresses (sb.directives ++ [d])
                    sb.startLine sb.endLine
                | none => sb) := by
          simp only [parseSiteBody]
          rw [if_neg h1, if_neg h2]
        rw [he]
        have hts : (parseDirective n (peek st).2).2.tokens = st.tokens := by
          rw [((parseDirective_state n).1 _).1, peek_tokens]
        refine ih _ _ (by rw [hts]; exact hM) ?_
        rcases hr : (parseDirective n (peek st).2).1 with _ | d0
        · exact hsb
        · intro d hd
          rcases List.mem_append.mp hd with hd | hd
          · exact hsb d hd
          · rw [List.mem_singleton.mp hd]
            exact (parseDirective_linesOK n).1 (peek st).2 (by rw [peek_tokens]; exact hM) d0 hr

theorem parseGlobalBody_linesOK (fuel : Nat) (st : PState) (g : GlobalBlock)
    (hM : LineMono st.tokens) (hg : ∀ d ∈ g.directives, LinesOK d) :
    ∀ d ∈ (parseGlobalBody fuel st g).1.directives, LinesOK d := by
  induction fuel generalizing st g with
  | zero => exact hg
  | succ n ih =>
    by_cases h1 : (peek st).1.type = TokenType.eof
    · have he : parseGlobalBody (n + 1) st g =
          (g, pushErr (peek st).2 unclosedGlobalMsg (peek st).1.range) := by
        simp only [parseGlobalBody]
        rw [if_pos h1]
      rw [he]
      exact hg
    · by_cases h2 : (peek st).1.type = TokenType.rbrace
      · have he : parseGlobalBody (n + 1) st g =
            (GlobalBlock.mk g.directives g.startLine (peek st).1.line,
              (next (peek st).2).2) := by
          simp only [parseGlobalBody]
          rw [if_neg h1, if_pos h2]
        rw [he]
        exact hg
      · have he : parseGlobalBody (n + 1) st g =
            parseGlobalBody n (parseDirective n (peek st).2).2
              (match (parseDirective n (peek st).2).1 with
                | some d => GlobalBlock.mk (g.directives ++ [d]) g.startLine g.endLine
                | none => g) := by
          simp only [parseGlobalBody]
          rw [if_neg h1, if_neg h2]
        rw [he]
        have hts : (parseDirective n (peek st).2).2.tokens = st.tokens := by
          rw [((parseDirective_state n).1 _).1, peek_tokens]
        refine ih _ _ (by rw [hts]; exact hM) ?_
        rcases hr : (parseDirective n (peek st).2).1 with _ | d0
        · exact hg
        · intro d hd
          rcases List.mem_append.mp hd with hd | hd
          · exact hg d hd
          · rw [List.mem_singleton.mp hd]
            exact (parseDirective_linesOK n).1 (peek st).2 (by rw [peek_tokens]; exact hM) d0 hr

theorem parseSiteBlock_tokens (fuel : Nat) (st : PState) :
    (parseSiteBlock fuel st).2.tokens = st.tokens := by
  rcases hE : (parseSiteAddrs fuel st (SiteBlock.mk [] [] 0 0)).1 with _ | sb
  · simp only [parseSiteBlock]
    rw [hE]
    exact (parseSiteAddrs_state fuel st _).1
  · by_cases haddr : sb.addresses = []
    · simp only [parseSiteBlock]
      rw [hE]
      dsimp only
      rw [if_pos haddr]
      exact (parseSiteAddrs_state fuel st _).1
    · by_cases hlb : (peek (parseSiteAddrs fuel st (SiteBlock.mk [] [] 0 0)).2).1.type ≠
          TokenType.lbrace
      · simp only [parseSiteBlock]
        rw [hE]
        dsimp only
        rw [if_neg haddr, if_pos hlb]
        show (pushErr _ _ _).tokens = st.tokens
        rw [pushErr_tokens, peek_tokens]
        exact (parseSiteAddrs_state fuel st _).1
      · simp only [parseSiteBlock]
        rw [hE]
        dsimp only
        rw [if_neg haddr, if_neg hlb]
        show (parseSiteBody fuel _ sb).2.tokens = st.tokens
        rw [(parseSiteBody_state fuel _ sb).1, next_tokens, peek_tokens]
        exact (parseSiteAddrs_state fuel st _).1

theorem parseSiteBlock_linesOK (fuel : Nat) (st : PState) (hM : LineMono st.tokens) :
    ∀ sb', (parseSiteBlock fuel st).1 = some sb' → ∀ d ∈ sb'.directives, LinesOK d := by
  intro sb' hsb'
  rcases hE : (parseSiteAddrs fuel st (SiteBlock.mk [] [] 0 0)).1 with _ | sb
  · simp only [parseSiteBlock] at hsb'
    rw [hE] at hsb'
    exact Option.noConfusion hsb'
  · have hpres := (parseSiteAddrs_props fuel st (SiteBlock.mk [] [] 0 0)).2 sb hE
    by_cases haddr : sb.addresses = []
    · simp only [parseSiteBlock] at hsb'
      rw [hE] at hsb'
      dsimp only at hsb'
      rw [if_pos haddr] at hsb'
      exact Option.noConfusion hsb'
    · by_cases hlb : (peek (parseSiteAddrs fuel st (SiteBlock.mk [] [] 0 0)).2).1.type ≠
          TokenType.lbrace
      · simp only [parseSiteBlock] at hsb'
        rw [hE] at hsb'
        dsimp only at hsb'
        rw [if_neg haddr, if_pos hlb] at hsb'
        dsimp only at hsb'
        injection hsb' with hsb'
        subst hsb'
        intro d hd
        rw [hpres.1] at hd
        exact absurd hd (List.not_mem_nil d)
      · simp only [parseSiteBlock] at hsb'
        rw [hE] at hsb'
        dsimp only at hsb'
        rw [if_neg haddr, if_neg hlb] at hsb'
        dsimp only at hsb'
        injection hsb' with hsb'
        subst hsb'
        have hts : (next (peek (parseSiteAddrs fuel st
            (SiteBlock.mk [] [] 0 0)).2).2).2.tokens = st.tokens := by
          rw [next_tokens, peek_tokens]
          exact (parseSiteAddrs_state fuel st _).1
        refine parseSiteBody_linesOK fuel _ sb (by rw [hts]; exact hM) ?_
        intro d hd
        rw [hpres.1] at hd
        exact absurd hd (List.not_mem_nil d)

theorem parseFileLoop_linesOK (fuel : Nat) (st : PState) (acc : List SiteBlock)
    (hM : LineMono st.tokens)
    (hacc : ∀ sb ∈ acc, ∀ d ∈ sb.directives, LinesOK d) :
    ∀ sb ∈ (parseFileLoop fuel st acc).1, ∀ d ∈ sb.directives, LinesOK d := by
  induction fuel generalizing st acc with
  | zero => exact hacc
  | succ n ih =>
    by_cases h1 : (peek st).1.type = TokenType.eof
    · have he : parseFileLoop (n + 1) st acc = (acc, (peek st).2) := by
        simp only [parseFileLoop]
        rw [if_pos h1]
      rw [he]
      exact hacc
    · have he : parseFileLoop (n + 1) st acc =
          parseFileLoop n (parseSiteBlock n (peek st).2).2
            (match (parseSiteBlock n (peek st).2).1 with
              | some sb => acc ++ [sb]
              | none => acc) := by
        simp only [parseFileLoop]
        rw [if_neg h1]
      rw [he]
      have hts : (parseSiteBlock n (peek st).2).2.tokens = st.tokens := by
        rw [parseSiteBlock_tokens, peek_tokens]
      refine ih _ _ (by rw [hts]; exact hM) ?_
      rcases hr : (parseSiteBlock n (peek st).2).1 with _ | sb0
      · exact hacc
      · intro sb hsb
        rcases List.mem_append.mp hsb with hsb | hsb
        · exact hacc sb hsb
        · rw [List.mem_singleton.mp hsb]
          exact parseSiteBlock_linesOK n (peek st).2 (by rw [peek_tokens]; exact hM) sb0 hr

theorem parseFile_linesOK (fuel : Nat) (ts : List Token) (hM : LineMono ts) :
    FileLinesOK (parseFile fuel (PState.mk ts 0 [])).1 := by
  by_cases h1 : (peek (PState.mk ts 0 [])).1.type = TokenType.lbrace
  · have he : parseFile fuel (PState.mk ts 0 []) =
        ((File.mk (some (parseGlobalBlock fuel (peek (PState.mk ts 0 [])).2).1)
          (parseFileLoop fuel (parseGlobalBlock fuel (peek (PState.mk ts 0 [])).2).2 []).1),
          (parseFileLoop fuel
            (parseGlobalBlock fuel (peek (PState.mk ts 0 [])).2).2 []).2.errors) := by
      simp only [parseFile]
      rw [if_pos h1]
    rw [he]
    have hgts : (parseGlobalBlock fuel (peek (PState.mk ts 0 [])).2).2.tokens = ts := by
      show (parseGlobalBody fuel _ _).2.tokens = ts
      rw [(parseGlobalBody_state fuel _ _).1, next_tokens, peek_tokens]
    constructor
    · intro g hg d hd
      injection hg with hg
      subst hg
      refine parseGlobalBody_linesOK fuel _ _ ?_ ?_ d hd
      · show LineMono (next (peek (PState.mk ts 0 [])).2).2.tokens
        rw [next_tokens, peek_tokens]
        exact hM
      · intro d hd
        exact absurd hd (List.not_mem_nil d)
    · intro sb hsb d hd
      refine parseFileLoop_linesOK fuel _ [] (by rw [hgts]; exact hM) ?_ sb hsb d hd
      intro sb hsb
      exact absurd hsb (List.not_mem_nil sb)
  · have he : parseFile fuel (PState.mk ts 0 []) =
        ((File.mk none
          (parseFileLoop fuel (peek (PState.mk ts 0 [])).2 []).1),
          (parseFileLoop fuel (peek (PState.mk ts 0 [])).2 []).2.errors) := by
      simp only [parseFile]
      rw [if_neg h1]
    rw [he]
    constructor
    · intro g hg
      exact Option.noConfusion hg
    · intro sb hsb d hd
      refine parseFileLoop_linesOK fuel _ [] (by rw [peek_tokens]; exact hM) ?_ sb hsb d hd
      intro sb hsb
      exact absurd hsb (List.not_mem_nil sb)

theorem placeholders_eq_scan (fuel : Nat) :
    (∀ d : Directive,
      analyzeDirectivePlaceholders fuel d = (scanTokensDir fuel d).filterMap placeholderDiag) ∧
    (∀ ds : List Directive,
      placeholdersList fuel ds = (scanTokensList fuel ds).filterMap placeholderDiag) := by
  induction fuel with
  | zero => exact ⟨fun d => rfl, fun ds => rfl⟩
  | succ n ih =>
    constructor
    · intro d
      obtain ⟨nt, args, body, s, e⟩ := d
      rw [analyzeDirectivePlaceholders, scanTokensDir, List.filterMap_append,
        List.filterMap_map, ih.2]
      rfl
    · intro ds
      cases ds with
      | nil => rfl
      | cons d rest =>
        rw [placeholdersList, scanTokensList, List.filterMap_append, (ih.1) d, (ih.2) rest]

theorem filterMap_flatMap_placeholder (l : List SiteBlock) (g : SiteBlock → List Token) :
    (l.flatMap g).filterMap placeholderDiag =
      l.flatMap fun x => (g x).filterMap placeholderDiag := by
  induction l with
  | nil => rfl
  | cons sb rest ih => simp [List.flatMap_cons, List.filterMap_append, ih]

theorem analyzeFilePlaceholders_eq_scan (f : File) :
    analyzeFilePlaceholders f = (scanTokensFile f).filterMap placeholderDiag := by
  unfold analyzeFilePlaceholders scanTokensFile
  rw [List.filterMap_append, filterMap_flatMap_placeholder]
  have hglobal :
      (match f.globalBlock with
        | some g => placeholdersList (sizeOf g.directives) g.directives
        | none => []) =
      ((match f.globalBlock with
        | some g => scanTokensList (sizeOf g.directives) g.directives
        | none => []) : List Token).filterMap placeholderDiag := by
    cases f.globalBlock with
    | none => rfl
    | some g => exact (placeholders_eq_scan _).2 _
  rw [hglobal]
  have hsite : ∀ sb : SiteBlock,
      (sb.addresses.filterMap placeholderDiag ++
        placeholdersList (sizeOf sb.directives) sb.directives) =
      ((sb.addresses ++ scanTokensList (sizeOf sb.directives) sb.directives).filterMap
        placeholderDiag) := by
    intro sb
    rw [List.filterMap_append, (placeholders_eq_scan _).2]
  simp only [hsite]

/-! ## Claim theorems -/

theorem takeWhile_append_word (p : Char → Bool) (w rest : List Char)
    (hw : ∀ c ∈ w, p c = true) (hrest : ∀ c, rest.head? = some c → p c = false) :
    (w ++ rest).takeWhile p = w := by
  induction w with
  | nil =>
    simp only [List.nil_append]
    cases rest with
    | nil => rfl
    | cons r rs =>
      rw [List.takeWhile_cons, hrest r rfl]
      simp
  | cons c w' ih =>
    rw [List.cons_append, List.takeWhile_cons, hw c (by simp)]
    rw [ih (fun x hx => hw x (by simp [hx]))]
    simp

/-- C2: a maximal whitespace-free run — in particular one with a `{`...`}`
span contiguous with surrounding non-whitespace characters — is lexed as a
single token holding exactly that text; the token is an Ident unless the run
is exactly `{` or `}`, in which case it is a structural brace token. The
first conjunct is the general single-token lemma; the remaining conjuncts
classify runs and check the claim's examples `http://{$VAR}:3000` (one Ident),
`{http.request.uri}` (one Ident), and a standalone `{` after whitespace
(its own LBrace token). -/
theorem C2_placeholder_swallowing :
    (∀ (fuel : Nat) (w rest : List Char) (line col : Nat),
        w ≠ [] → (∀ c ∈ w, isWordChar c = true) →
        w.head? ≠ some '#' → w.head? ≠ some dquoteChar → w.head? ≠ some btickChar →
        (∀ c, rest.head? = some c → c.isWhitespace = true) →
        lexRun (fuel + 1) (w ++ rest) line col =
          Token.mk (classifyWord w) (String.mk w) line col ::
            lexRun fuel rest line (col + w.length)) ∧
    (∀ w : List Char, w ≠ [lbraceChar] → w ≠ [rbraceChar] →
        classifyWord w = TokenType.ident) ∧
    classifyWord [lbraceChar] = TokenType.lbrace ∧
    tokenize "http://\x7b$VAR\x7d:3000" =
      [Token.mk TokenType.ident "http://\x7b$VAR\x7d:3000" 0 0, eofToken] ∧
    tokenize "\x7bhttp.request.uri\x7d" =
      [Token.mk TokenType.ident "\x7bhttp.request.uri\x7d" 0 0, eofToken] ∧
    tokenize "a \x7b\nb\n\x7d" =
      [Token.mk TokenType.ident "a" 0 0, Token.mk TokenType.lbrace "\x7b" 0 2,
        Token.mk TokenType.ident "b" 1 0, Token.mk TokenType.rbrace "\x7d" 2 0, eofToken] := by
  refine ⟨?_, ?_, by decide, by decide, by decide, by decide⟩
  · intro fuel w rest line col hne hw hhash hdq hbt hsep
    obtain ⟨c, w', rfl⟩ := List.exists_cons_of_ne_nil hne
    have hc : isWordChar c = true := hw c (List.mem_cons_self c w')
    have hcw : c.isWhitespace = false := by simpa [isWordChar] using hc
    have hnl : ¬ c = '\n' := by
      intro h
      subst h
      exact absurd hcw (by decide)
    have hws : ¬ (c.isWhitespace = true) := by simp [hcw]
    have hh : ¬ c = '#' := fun h => hhash (by simp [h])
    have hq : ¬ (c = dquoteChar ∨ c = btickChar) := by
      rintro (h | h)
      · exact hdq (by simp [h])
      · exact hbt (by simp [h])
    rw [List.cons_append, lexRun, if_neg hnl, if_neg hws, if_neg hh, if_neg hq]
    have htake : (c :: (w' ++ rest)).takeWhile isWordChar = c :: w' := by
      have h2 := takeWhile_append_word isWordChar (c :: w') rest hw (fun x hx => by
        have hxw := hsep x hx
        simp [isWordChar, hxw])
      rwa [List.cons_append] at h2
    have hdrop : (c :: (w' ++ rest)).drop (c :: w').length = rest := by
      have h2 := List.drop_left (c :: w') rest
      rwa [List.cons_append] at h2
    simp only [htake, hdrop]
  · intro w h1 h2
    unfold classifyWord
    rw [if_neg h1, if_neg h2]

/-- Witness for C2: the contiguous run `a{b` lexes as one Ident token with
that exact text. -/
theorem C2_placeholder_swallowing_witness :
    (['a', lbraceChar, 'b'] : List Char) ≠ [] ∧
    (∀ c ∈ (['a', lbraceChar, 'b'] : List Char), isWordChar c = true) ∧
    lexRun 1 ['a', lbraceChar, 'b'] 0 0 =
      [Token.mk TokenType.ident (String.mk ['a', lbraceChar, 'b']) 0 0, eofToken] := by
  refine ⟨by decide, by decide, ?_⟩
  have h := C2_placeholder_swallowing.1 0 ['a', lbraceChar, 'b'] [] 0 0
    (by decide) (by decide) (by decide) (by decide) (by decide)
    (fun c hc => by simp at hc)
  rw [List.append_nil] at h
  rw [h]
  decide

/-- C4: the placeholder scan inspects exactly the site-block address tokens
and the directive argument tokens at all nesting depths (structural
LBrace/RBrace tokens excluded), and for each scanned token — with `\{` and
`\}` treated as literal escapes that never change depth — it yields exactly
one Error diagnostic at the token's range when a `}` occurs at depth 0
(unmatched close: some prefix of the escape-stripped text has negative net
depth), exactly one Error diagnostic at the token's range when the net depth
at the end is positive (unclosed `{`), and none when the text is balanced.
The last four conjuncts check the spec's examples `{$X}`, `{$X`, `X}` and
`\{X\}`. -/
theorem C4_placeholder_balance :
    (∀ f : File, analyzeFilePlaceholders f = (scanTokensFile f).filterMap placeholderDiag) ∧
    (∀ t : Token, t.type = TokenType.lbrace ∨ t.type = TokenType.rbrace →
        placeholderDiag t = none) ∧
    (∀ t : Token, ¬ (t.type = TokenType.lbrace ∨ t.type = TokenType.rbrace) →
        placeholderDiag t =
          (if hasUnderflow (stripEscapedBraces t.value.data) then
              some (mkErr t.range unmatchedCloseMsg)
            else if 0 < netDepth (stripEscapedBraces t.value.data) then
              some (mkErr t.range unclosedPlaceholderMsg)
            else none)) ∧
    checkPlaceholderBalance (String.mk [lbraceChar, '$', 'X', rbraceChar]) = "" ∧
    checkPlaceholderBalance (String.mk [lbraceChar, '$', 'X']) = unclosedPlaceholderMsg ∧
    checkPlaceholderBalance (String.mk ['X', rbraceChar]) = unmatchedCloseMsg ∧
    checkPlaceholderBalance (String.mk ['\\', lbraceChar, 'X', '\\', rbraceChar]) = "" := by
  refine ⟨analyzeFilePlaceholders_eq_scan, ?_, ?_, by decide, by decide, by decide, by decide⟩
  · intro t h
    unfold placeholderDiag
    rw [if_pos h]
  · intro t h
    unfold placeholderDiag
    rw [if_neg h]
    show (if checkPlaceholderBalance t.value = "" then none
          else some (mkErr t.range (checkPlaceholderBalance t.value))) = _
    have hck : checkPlaceholderBalance t.value =
        (if hasUnderflow (stripEscapedBraces t.value.data) then unmatchedCloseMsg
          else if 0 < netDepth (stripEscapedBraces t.value.data) then unclosedPlaceholderMsg
          else "") := by
      rw [checkPlaceholderBalance, checkBalanceFrom_eq]
      simp [hasUnderflow]
    rw [hck]
    split_ifs with h1 h2 h3 h4 h5 <;> first | rfl | exact absurd ‹_› (by decide)

/-- Witness for C4: the token text `X}` (a close brace at depth 0) produces
exactly one Error diagnostic at the token's range with the unmatched-close
message. -/
theorem C4_placeholder_balance_witness :
    ¬ ((Token.mk TokenType.ident (String.mk ['X', rbraceChar]) 0 0).type = TokenType.lbrace ∨
        (Token.mk TokenType.ident (String.mk ['X', rbraceChar]) 0 0).type = TokenType.rbrace) ∧
    placeholderDiag (Token.mk TokenType.ident (String.mk ['X', rbraceChar]) 0 0) =
      some (mkErr (Token.mk TokenType.ident (String.mk ['X', rbraceChar]) 0 0).range
        unmatchedCloseMsg) := by
  refine ⟨by decide, ?_⟩
  rw [C4_placeholder_balance.2.2.1
    (Token.mk TokenType.ident (String.mk ['X', rbraceChar]) 0 0) (by decide)]
  decide

/-- C1: for every directive at the top level of a non-snippet site block (or
of a container body, which the analyzer validates with the same function and
`inSnippet = false`) whose name is not in `KnownTopLevel` and does not start
with `@`, `analyzeSiteDirective` emits exactly one Warning diagnostic at the
name token's range — using the `knownSubDirectiveParent` placement hint
("X must appear inside a Y block, not at the site level") when it has an
entry for the name, else "unknown directive X" — and emits nothing from the
directive's body (the analyzer does not descend into it). -/
theorem C1_unknown_site_directive (fuel : Nat) (snips : List String) (d : Directive)
    (hat : goHasPrefix d.name.value "@" = false)
    (hknown : KnownTopLevel.contains d.name.value = false) :
    analyzeSiteDirective (fuel + 1) snips d false =
      [mkWarn d.name.range
        (match knownSubDirectiveParent.lookup d.name.value with
          | some parent =>
            goQuote d.name.value ++ " must appear inside a " ++ goQuote parent ++
              " block, not at the site level"
          | none => "unknown directive " ++ goQuote d.name.value)] := by
  obtain ⟨nameTok, args, body, s, e⟩ := d
  simp only [Directive.name] at hat hknown ⊢
  have hmem : nameTok.value ∉ KnownTopLevel := by simpa using hknown
  simp only [analyzeSiteDirective]
  simp [hat, hmem]

/-- Witness for C1: the directive `to` (a reverse_proxy subdirective) at the
top of a site block, with a body containing an unknown name, produces
exactly the placement-hint Warning and nothing from the body. -/
theorem C1_unknown_site_directive_witness :
    goHasPrefix "to" "@" = false ∧ KnownTopLevel.contains "to" = false ∧
    analyzeSiteDirective 1 []
        (Directive.mk (Token.mk TokenType.ident "to" 1 1) []
          [Directive.mk (Token.mk TokenType.ident "garbage" 2 2) [] [] 2 2] 1 3) false =
      [mkWarn (Range.mk (Position.mk 1 1) (Position.mk 1 3))
        "\"to\" must appear inside a \"reverse_proxy\" block, not at the site level"] := by
  refine ⟨by decide, by decide, ?_⟩
  rw [C1_unknown_site_directive 0 []
    (Directive.mk (Token.mk TokenType.ident "to" 1 1) []
      [Directive.mk (Token.mk TokenType.ident "garbage" 2 2) [] [] 2 2] 1 3)
    (by decide) (by decide)]
  decide

/-- C5: `analyzeImport` (the sole producer of snippet diagnostics, called at
every nesting level) skips an import whose first argument is a file path or
glob (contains `/`, `\`, `*`, or starts with `.`) or a placeholder (starts
with `{` and ends with `}`); otherwise an argument naming a collected
snippet is accepted, and any other argument yields exactly one Warning
"undefined snippet N" at the argument token's range. The final conjunct
checks the end-to-end scenario: a file defining snippet `(s)` whose site
block imports the undefined name `t` produces exactly that Warning from
`Analyze`, located at the argument's range. -/
theorem C5_import_validation (f : File) (d : Directive) (a0 : Argument)
    (rest : List Argument) (hargs : d.args = a0 :: rest) :
    ((isFileImport a0.token.value = true ∨ isCaddyPlaceholder a0.token.value = true) →
      analyzeImport (collectSnippets f) d = []) ∧
    (isFileImport a0.token.value = false → isCaddyPlaceholder a0.token.value = false →
      (CollectSnippetNames f).contains a0.token.value = true →
      analyzeImport (collectSnippets f) d = []) ∧
    (isFileImport a0.token.value = false → isCaddyPlaceholder a0.token.value = false →
      (CollectSnippetNames f).contains a0.token.value = false →
      analyzeImport (collectSnippets f) d =
        [mkWarn a0.token.range ("undefined snippet " ++ goQuote a0.token.value)]) ∧
    Analyze (Parse "(s) \x7b\nrespond ok\n\x7d\nexample.com \x7b\nimport t\n\x7d\n").1 =
      [mkWarn (Range.mk (Position.mk 4 7) (Position.mk 4 8))
        ("undefined snippet " ++ goQuote "t")] := by
  refine ⟨?_, ?_, ?_, by decide⟩
  · intro h
    unfold analyzeImport
    rw [hargs]
    rcases h with h | h <;> simp [h]
  · intro h1 h2 h3
    have hmem : a0.token.value ∈ CollectSnippetNames f := by simpa using h3
    unfold analyzeImport collectSnippets
    rw [hargs]
    simp [h1, h2, hmem]
  · intro h1 h2 h3
    have hmem : a0.token.value ∉ CollectSnippetNames f := by simpa using h3
    unfold analyzeImport collectSnippets
    rw [hargs]
    simp [h1, h2, hmem]

/-- Witness for C5: an `import t` directive in a file with no snippets
yields exactly the "undefined snippet" Warning at the argument's range. -/
theorem C5_import_validation_witness :
    (Directive.mk (Token.mk TokenType.ident "import" 1 1)
        [Argument.mk (Token.mk TokenType.ident "t" 1 8)] [] 1 1).args =
      [Argument.mk (Token.mk TokenType.ident "t" 1 8)] ∧
    isFileImport "t" = false ∧ isCaddyPlaceholder "t" = false ∧
    (CollectSnippetNames (File.mk none [])).contains "t" = false ∧
    analyzeImport (collectSnippets (File.mk none []))
        (Directive.mk (Token.mk TokenType.ident "import" 1 1)
          [Argument.mk (Token.mk TokenType.ident "t" 1 8)] [] 1 1) =
      [mkWarn (Range.mk (Position.mk 1 8) (Position.mk 1 9))
        ("undefined snippet " ++ goQuote "t")] := by
  refine ⟨rfl, by decide, by decide, by decide, ?_⟩
  have h := (C5_import_validation (File.mk none [])
    (Directive.mk (Token.mk TokenType.ident "import" 1 1)
      [Argument.mk (Token.mk TokenType.ident "t" 1 8)] [] 1 1)
    (Argument.mk (Token.mk TokenType.ident "t" 1 8)) [] rfl).2.2.1
    (by decide) (by decide) (by decide)
  rw [h]
  decide

/-- C6: on `example.com {\n\treverse_proxy {\n\t\t\n\t}\n}\n` with the
cursor on the blank line (line 2) strictly inside the reverse_proxy body,
the completion resolver returns exactly the reverse_proxy subdirective name
set sorted ascending; it contains `to`, `transport` and `lb_policy` and not
the top-level-only name `tls`. -/
theorem C6_reverse_proxy_completion :
    completionNamesAt
        (Parse "example.com \x7b\n\treverse_proxy \x7b\n\t\t\n\t\x7d\n\x7d\n").1 2 =
      some (List.insertionSort goStrLeRel reverseProxySubNames) ∧
    ((completionNamesAt
        (Parse "example.com \x7b\n\treverse_proxy \x7b\n\t\t\n\t\x7d\n\x7d\n").1 2).getD
        []).Perm reverseProxySubNames ∧
    List.Sorted goStrLeRel
      ((completionNamesAt
        (Parse "example.com \x7b\n\treverse_proxy \x7b\n\t\t\n\t\x7d\n\x7d\n").1 2).getD []) ∧
    "to" ∈ ((completionNamesAt
        (Parse "example.com \x7b\n\treverse_proxy \x7b\n\t\t\n\t\x7d\n\x7d\n").1 2).getD []) ∧
    "transport" ∈ ((completionNamesAt
        (Parse "example.com \x7b\n\treverse_proxy \x7b\n\t\t\n\t\x7d\n\x7d\n").1 2).getD []) ∧
    "lb_policy" ∈ ((completionNamesAt
        (Parse "example.com \x7b\n\treverse_proxy \x7b\n\t\t\n\t\x7d\n\x7d\n").1 2).getD []) ∧
    "tls" ∉ ((completionNamesAt
        (Parse "example.com \x7b\n\treverse_proxy \x7b\n\t\t\n\t\x7d\n\x7d\n").1 2).getD []) := by
  refine ⟨by decide, by decide, by decide, by decide, by decide, by decide, by decide⟩

/-- C9 counterexample: two snippet blocks both named `(a)` make
`CollectSnippetNames` return `["a", "a"]` — the name appears twice, so the
result is not duplicate-free as the claim states. -/
theorem C9_duplicate_snippet_names :
    CollectSnippetNames (Parse "(a) \x7b\n\x7d\n(a) \x7b\n\x7d\n").1 = ["a", "a"] ∧
    ¬ (CollectSnippetNames (Parse "(a) \x7b\n\x7d\n(a) \x7b\n\x7d\n").1).Nodup := by
  exact ⟨by decide, by decide⟩

/-- C9 amended: `CollectSnippetNames` returns exactly the names (without
parentheses) of the site blocks whose first address matches `(name)`, with
multiplicity (duplicate declarations stay duplicated), as a list sorted
ascending. -/
theorem C9_snippet_names_sorted (f : File) :
    List.Sorted goStrLeRel (CollectSnippetNames f) ∧
    (CollectSnippetNames f).Perm (f.siteBlocks.filterMap snippetNameOf) := by
  constructor
  · exact @List.sorted_insertionSort String goStrLeRel goStrLeRel.decRel
      ⟨goStrLeRel_total⟩ ⟨goStrLeRel_trans⟩ _
  · exact List.perm_insertionSort _ _

/-- C10: when the underlying Caddyfile tokenizer reports an error, the
`Tokenize` shim returns a stream holding a single EOF token, and parsing
that stream yields an empty file (no global block, no site blocks) together
with an empty error list — the malformed input is reported nowhere. -/
theorem C10_tokenizer_error_silent :
    (∀ e : String, tokenizeShim (Except.error e) = [eofToken]) ∧
    (∀ fuel : Nat, parseFile fuel (PState.mk [eofToken] 0 []) = (File.mk none [], [])) := by
  constructor
  · intro e; rfl
  · intro fuel
    cases fuel with
    | zero => rfl
    | succ n => rfl


/-- C7 counterexample: a site block left open at EOF gets the
"unclosed site block" parse error, but its `endLine` is NOT set to the last
seen line of the input: it stays 0 (the zero value) while the last token
line is 1 — the block is not implicitly closed at EOF. -/
theorem C7_unclosed_endline_counterexample :
    ((Parse "example.com \x7b\nrespond ok\n").2.map fun e => e.message) =
      [unclosedSiteMsg "example.com"] ∧
    ((Parse "example.com \x7b\nrespond ok\n").1.siteBlocks.map fun sb =>
      (sb.startLine, sb.endLine)) = [(0, 0)] ∧
    maxTokenLine (Tokenize "example.com \x7b\nrespond ok\n") = 1 := by
  exact ⟨by decide, by decide, by decide⟩

/-- C7 amended: a block (global options block, site block, or directive
body) still open at EOF is reported with the corresponding "unclosed" parse
error, but its `endLine` is left exactly as it was when the body loop
started — 0 for global and site blocks, the name's line for directives —
rather than being set to the last seen line. The closed conjuncts exhibit
this end to end: a directive body and a site block both left open at EOF
keep `endLine` 1 and 0 while the last token line is 2. -/
theorem C7_unclosed_blocks :
    (∀ fuel st g, unclosedGlobalMsg ∉ msgs st →
      unclosedGlobalMsg ∈ msgs (parseGlobalBody fuel st g).2 →
      (parseGlobalBody fuel st g).1.endLine = g.endLine) ∧
    (∀ fuel st sb v, unclosedSiteMsg v ∉ msgs st →
      unclosedSiteMsg v ∈ msgs (parseSiteBody fuel st sb).2 →
      (parseSiteBody fuel st sb).1.endLine = sb.endLine) ∧
    (∀ fuel st d v, unclosedDirMsg v ∉ msgs st →
      unclosedDirMsg v ∈ msgs (parseDirectiveBody fuel st d).2 →
      (parseDirectiveBody fuel st d).1.endLine = d.endLine) ∧
    ((Parse "example.com \x7b\nroute \x7b\nrespond ok\n").2.map fun e => e.message) =
      [unclosedDirMsg "route", unclosedSiteMsg "example.com"] ∧
    ((Parse "example.com \x7b\nroute \x7b\nrespond ok\n").1.siteBlocks.map fun sb =>
      sb.directives.map fun d => (d.startLine, d.endLine)) = [[(1, 1)]] ∧
    maxTokenLine (Tokenize "example.com \x7b\nroute \x7b\nrespond ok\n") = 2 := by
  refine ⟨?_, ?_, ?_, by decide, by decide, by decide⟩
  · exact fun fuel st g hnv hv => parseGlobalBody_unclosed fuel st g hnv hv
  · exact fun fuel st sb v hnv hv => parseSiteBody_unclosed fuel st sb v hnv hv
  · exact fun fuel st d v hnv hv => (((parseDirective_msgs fuel).2 st d).2 v hv hnv).2

/-- Witness for C7: concrete runs of the three body loops on a stream
holding a single EOF token, each starting from a block with a sentinel
`endLine`, emit the unclosed error and keep the sentinel unchanged. -/
theorem C7_unclosed_blocks_witness :
    (unclosedGlobalMsg ∉ msgs (PState.mk [eofToken] 0 []) ∧
      unclosedGlobalMsg ∈ msgs (parseGlobalBody 1 (PState.mk [eofToken] 0 [])
        (GlobalBlock.mk [] 0 5)).2 ∧
      (parseGlobalBody 1 (PState.mk [eofToken] 0 []) (GlobalBlock.mk [] 0 5)).1.endLine = 5) ∧
    (unclosedSiteMsg "a.com" ∉ msgs (PState.mk [eofToken] 0 []) ∧
      unclosedSiteMsg "a.com" ∈ msgs (parseSiteBody 1 (PState.mk [eofToken] 0 [])
        (SiteBlock.mk [Token.mk TokenType.ident "a.com" 0 0] [] 0 7)).2 ∧
      (parseSiteBody 1 (PState.mk [eofToken] 0 [])
        (SiteBlock.mk [Token.mk TokenType.ident "a.com" 0 0] [] 0 7)).1.endLine = 7) ∧
    (unclosedDirMsg "route" ∉ msgs (PState.mk [eofToken] 0 []) ∧
      unclosedDirMsg "route" ∈ msgs (parseDirectiveBody 1 (PState.mk [eofToken] 0 [])
        (Directive.mk (Token.mk TokenType.ident "route" 1 0) [] [] 1 9)).2 ∧
      (parseDirectiveBody 1 (PState.mk [eofToken] 0 [])
        (Directive.mk (Token.mk TokenType.ident "route" 1 0) [] [] 1 9)).1.endLine = 9) := by
  refine ⟨⟨by decide, by decide, ?_⟩, ⟨by decide, by decide, ?_⟩, ⟨by decide, by decide, ?_⟩⟩
  · exact C7_unclosed_blocks.1 1 (PState.mk [eofToken] 0 []) (GlobalBlock.mk [] 0 5)
      (by decide) (by decide)
  · exact C7_unclosed_blocks.2.1 1 (PState.mk [eofToken] 0 [])
      (SiteBlock.mk [Token.mk TokenType.ident "a.com" 0 0] [] 0 7) "a.com"
      (by decide) (by decide)
  · exact C7_unclosed_blocks.2.2.1 1 (PState.mk [eofToken] 0 [])
      (Directive.mk (Token.mk TokenType.ident "route" 1 0) [] [] 1 9) "route"
      (by decide) (by decide)

/-- C8 counterexample: a bare address line (`b.com` on line 2, after a
complete site block) yields a SiteBlock with zero directives and the
missing-brace ParseError, but its `endLine` is 0 (the zero value), not its
`startLine` 2 — the claim's `endLine == startLine` fails whenever the
address is not on line 0. -/
theorem C8_missing_brace_counterexample :
    ((Parse "a.com \x7b\n\x7d\nb.com\n").1.siteBlocks.map fun sb =>
      (sb.addresses.map fun t => t.value, sb.startLine, sb.endLine)) =
      [(["a.com"], 0, 1), (["b.com"], 2, 0)] ∧
    ((Parse "a.com \x7b\n\x7d\nb.com\n").2.map fun e => e.message) = [expectedBraceMsg] := by
  exact ⟨by decide, by decide⟩

/-- C8 amended: whenever `parseSiteBlock` records the missing-brace
ParseError, it returns a SiteBlock with zero directives whose `endLine` is
0 (the zero value, never touched on this path) — which equals `startLine`
only when the address sits on line 0, as in the closed conjuncts. -/
theorem C8_missing_brace :
    (∀ fuel st, expectedBraceMsg ∉ msgs st →
      expectedBraceMsg ∈ msgs (parseSiteBlock fuel st).2 →
      ∃ sb, (parseSiteBlock fuel st).1 = some sb ∧ sb.directives = [] ∧ sb.endLine = 0) ∧
    ((Parse "b.com\n").1.siteBlocks.map fun sb =>
      (sb.addresses.map fun t => t.value, sb.directives.length, sb.startLine, sb.endLine)) =
      [(["b.com"], 0, 0, 0)] ∧
    ((Parse "b.com\n").2.map fun e => e.message) = [expectedBraceMsg] := by
  refine ⟨?_, by decide, by decide⟩
  intro fuel st hnv hv
  rcases hE : (parseSiteAddrs fuel st (SiteBlock.mk [] [] 0 0)).1 with _ | sb
  · simp only [parseSiteBlock] at hv ⊢
    rw [hE] at hv
    dsimp only at hv
    rcases (parseSiteAddrs_props fuel st (SiteBlock.mk [] [] 0 0)).1 _ hv with h3 | h3
    · exact absurd h3 hnv
    · exact absurd h3 expectedBraceMsg_ne_unexpectedRbraceMsg
  · by_cases haddr : sb.addresses = []
    · simp only [parseSiteBlock] at hv ⊢
      rw [hE] at hv
      dsimp only at hv
      rw [if_pos haddr] at hv
      rcases (parseSiteAddrs_props fuel st (SiteBlock.mk [] [] 0 0)).1 _ hv with h3 | h3
      · exact absurd h3 hnv
      · exact absurd h3 expectedBraceMsg_ne_unexpectedRbraceMsg
    · by_cases hlb : (peek (parseSiteAddrs fuel st (SiteBlock.mk [] [] 0 0)).2).1.type ≠
          TokenType.lbrace
      · have hpres := (parseSiteAddrs_props fuel st (SiteBlock.mk [] [] 0 0)).2 sb hE
        have he : parseSiteBlock fuel st = (some sb,
            pushErr (peek (parseSiteAddrs fuel st (SiteBlock.mk [] [] 0 0)).2).2
              expectedBraceMsg
              (peek (parseSiteAddrs fuel st (SiteBlock.mk [] [] 0 0)).2).1.range) := by
          simp only [parseSiteBlock]
          rw [hE]
          dsimp only
          rw [if_neg haddr, if_pos hlb]
        rw [he]
        exact ⟨sb, rfl, hpres.1, hpres.2⟩
      · have he : parseSiteBlock fuel st = (some (parseSiteBody fuel
            (next (peek (parseSiteAddrs fuel st (SiteBlock.mk [] [] 0 0)).2).2).2 sb).1,
            (parseSiteBody fuel
              (next (peek (parseSiteAddrs fuel st (SiteBlock.mk [] [] 0 0)).2).2).2 sb).2) := by
          simp only [parseSiteBlock]
          rw [hE]
          dsimp only
          rw [if_neg haddr, if_neg hlb]
        rw [he] at hv
        dsimp only at hv
        rcases parseSiteBody_msgs fuel _ sb _ hv with h3 | h3 | h3 | h3
        · rw [msgs_next, msgs_peek] at h3
          rcases (parseSiteAddrs_props fuel st (SiteBlock.mk [] [] 0 0)).1 _ h3 with h4 | h4
          · exact absurd h4 hnv
          · exact absurd h4 expectedBraceMsg_ne_unexpectedRbraceMsg
        · obtain ⟨w, h4⟩ := h3
          exact absurd h4 (expectedBraceMsg_ne_unclosedSiteMsg w)
        · obtain ⟨tt, h4⟩ := h3
          exact absurd h4 (expectedBraceMsg_ne_expectedNameMsg tt)
        · obtain ⟨w, h4⟩ := h3
          exact absurd h4 (expectedBraceMsg_ne_unclosedDirMsg w)

/-- Witness for C8: parsing the bare address line `b.com` records the
missing-brace error and returns a directive-free SiteBlock with `endLine`
0. -/
theorem C8_missing_brace_witness :
    expectedBraceMsg ∉ msgs (PState.mk (Tokenize "b.com\n") 0 []) ∧
    expectedBraceMsg ∈ msgs (parseSiteBlock 8 (PState.mk (Tokenize "b.com\n") 0 [])).2 ∧
    ∃ sb, (parseSiteBlock 8 (PState.mk (Tokenize "b.com\n") 0 [])).1 = some sb ∧
      sb.directives = [] ∧ sb.endLine = 0 := by
  refine ⟨by decide, by decide, ?_⟩
  exact C8_missing_brace.1 8 (PState.mk (Tokenize "b.com\n") 0 []) (by decide) (by decide)

/-- C3 counterexample: in `a {\nb { c }\n}\n` the directive `b` has a
parsed body block (its body holds the sub-directive `c`), yet its closing
brace sits on the name's own line, so `endLine == startLine == 1` — the
claimed equivalence of `endLine > startLine` with having a parsed body
block fails in the body direction. -/
theorem C3_one_line_body_counterexample :
    ((Parse "a \x7b\nb \x7b c \x7d\n\x7d\n").1.siteBlocks.map fun sb =>
      sb.directives.map fun d => (d.body.length, d.startLine, d.endLine)) = [[(1, 1, 1)]] := by
  decide

/-- C3 amended: for every token stream whose lines are non-decreasing
(except for EOF tokens, which carry line 0 — true of every `Tokenize`
output), every directive in the parsed tree satisfies
`startLine ≤ endLine` at every nesting depth. `endLine > startLine` can
only arise from a parsed body block whose closing brace sits on a later
line (as in the closed conjunct), but a directive with a parsed body block
may still have `endLine == startLine`: a body closed on the name's own
line, or left unclosed at EOF, keeps `endLine` at the name's line. -/
theorem C3_line_invariant :
    (∀ fuel ts, LineMono ts → FileLinesOK (parseFile fuel (PState.mk ts 0 [])).1) ∧
    ((Parse "a \x7b\nb \x7b\nc\n\x7d\n\x7d\n").1.siteBlocks.map fun sb =>
      sb.directives.map fun d => (d.body.length, d.startLine, d.endLine)) = [[(1, 1, 3)]] := by
  exact ⟨fun fuel ts hM => parseFile_linesOK fuel ts hM, by decide⟩

/-- Witness for C3: the `Tokenize` output of the one-line-body document has
non-decreasing lines, and its parse satisfies the line invariant. -/
theorem C3_line_invariant_witness :
    LineMono (Tokenize "a \x7b\nb \x7b c \x7d\n\x7d\n") ∧
    FileLinesOK (parseFile 40
      (PState.mk (Tokenize "a \x7b\nb \x7b c \x7d\n\x7d\n") 0 [])).1 := by
  refine ⟨by decide, ?_⟩
  exact C3_line_invariant.1 40 (Tokenize "a \x7b\nb \x7b c \x7d\n\x7d\n") (by decide)

end CaddyLS
